import Mathlib

/-!
Verification of the municipal website parser pipeline.

This file gives a shallow embedding, in Lean, of the content-classification
and normalization pipeline implemented in the repository:

* `parse_site.py`        — cleaning, classification, markdown normalization,
                           metadata extraction, page aggregation;
* `parse_site_improved.py` — the improved variant of the same pipeline;
* `parse_and_convert.py` — the class-based variant (metadata folding);
* `templates/layouts.py` — the five layout variants and layout dispatch.

Python strings are modelled as `List Char` (wrapped in `String` at the
interfaces), Python dicts with a fixed key set as structures, and the small
bounded regular expressions used by the source as an explicit backtracking
matcher (`Re`/`mtch`) whose alternative order mirrors Python's `re` engine:
alternations left to right, greedy quantifiers prefer consuming, lazy
quantifiers prefer not consuming, `search` takes the leftmost match.
-/

/-! ## Basic character and string helpers -/

/-- The whitespace characters of Python's `\s` regex class and `str.strip`
(restricted to ASCII, which is all the pipeline's inputs use). -/
def pySpace (c : Char) : Bool :=
  c = ' ' || c = '\t' || c = '\n' || c = '\r' || c = '\x0b' || c = '\x0c'

/-- Python `str.lower`, character-wise (ASCII). -/
def lowerStr (s : List Char) : List Char :=
  s.map Char.toLower

/-- Substring test on character lists (Python `needle in hay`). -/
def containsSub (nd : List Char) : List Char → Bool
  | [] => nd.isEmpty
  | c :: cs => nd.isPrefixOf (c :: cs) || containsSub nd cs

/-- Python `needle in hay` substring test. -/
def strIn (needle hay : String) : Bool :=
  containsSub needle.toList hay.toList

/-- Structural worker for `countSub`; the fuel argument bounds the number of
scan steps (it is always instantiated with the haystack length, which
suffices because each step drops at least one character). -/
def countSubAux (nd : List Char) : Nat → List Char → Nat
  | _, [] => if nd.isEmpty then 1 else 0
  | 0, _ :: _ => 0
  | fuel + 1, c :: cs =>
    if nd.isEmpty then (c :: cs).length + 1
    else if nd.isPrefixOf (c :: cs) then
      1 + countSubAux nd fuel (List.drop (nd.length - 1) cs)
    else
      countSubAux nd fuel cs

/-- Python `str.count(sub)`: number of non-overlapping occurrences, scanning
left to right.  `"".count` conventions follow Python (`len + 1`). -/
def countSub (nd hay : List Char) : Nat :=
  countSubAux nd hay.length hay

/-- `str.count` on `String`s. -/
def countSubStr (nd hay : String) : Nat :=
  countSub nd.toList hay.toList

/-- Python `str.strip()` from the left only. -/
def lstrip (l : List Char) : List Char :=
  l.dropWhile pySpace

/-- Python `str.strip()` from the right only: the result is a prefix of the
input with trailing whitespace removed. -/
def rstrip (l : List Char) : List Char :=
  (l.reverse.dropWhile pySpace).reverse

/-- Python `str.strip()`. -/
def pyStrip (l : List Char) : List Char :=
  rstrip (lstrip l)

/-- `str.strip` on `String`s. -/
def pyStripStr (s : String) : String :=
  String.mk (pyStrip s.toList)

/-! ## A small backtracking regex engine

The source uses a handful of fixed regular expressions (phone numbers,
e-mail addresses, dates, labels in a footer).  All of them are built from
literals, character classes, bounded repetition, alternation, and
greedy/lazy star over a character class, so the syntax below suffices.
`Re.eos` is `$` without `re.MULTILINE`: end of input or just before a single
trailing newline. -/

inductive Re : Type where
  | eps : Re
  | chr (p : Char → Bool) : Re
  | seq (a b : Re) : Re
  | alt (a b : Re) : Re
  | opt (a : Re) : Re
  | starC (p : Char → Bool) : Re
  | starCL (p : Char → Bool) : Re
  | eos : Re

/-- Greedy star over a character class: try to consume more first. -/
def tryStar (p : Char → Bool) : List Char → (List Char → Option (List Char)) →
    Option (List Char)
  | [], k => k []
  | c :: cs, k =>
    if p c then (tryStar p cs k).orElse (fun _ => k (c :: cs))
    else k (c :: cs)

/-- Lazy star over a character class: try to consume less first. -/
def tryLazy (p : Char → Bool) : List Char → (List Char → Option (List Char)) →
    Option (List Char)
  | [], k => k []
  | c :: cs, k =>
    (k (c :: cs)).orElse (fun _ =>
      if p c then tryLazy p cs k else none)

/-- Backtracking matcher in continuation style.  The continuation receives
the unconsumed rest of the input; the first success in Python's backtracking
order is returned. -/
def mtch : Re → List Char → (List Char → Option (List Char)) →
    Option (List Char)
  | Re.eps, s, k => k s
  | Re.chr p, s, k =>
    match s with
    | [] => none
    | c :: cs => if p c then k cs else none
  | Re.seq a b, s, k => mtch a s (fun s1 => mtch b s1 k)
  | Re.alt a b, s, k => (mtch a s k).orElse (fun _ => mtch b s k)
  | Re.opt a, s, k => (mtch a s k).orElse (fun _ => k s)
  | Re.starC p, s, k => tryStar p s k
  | Re.starCL p, s, k => tryLazy p s k
  | Re.eos, s, k =>
    match s with
    | [] => k []
    | ['\n'] => k ['\n']
    | _ => none

/-- Length of the match of `r` at the start of `s`, if any. -/
def matchHere (r : Re) (s : List Char) : Option Nat :=
  (mtch r s (fun rest => some rest)).map (fun rest => s.length - rest.length)

/-- `re.search`: the leftmost match, returned as the matched substring. -/
def reSearch (r : Re) : List Char → Option (List Char)
  | [] => (matchHere r []).map (fun _ => [])
  | c :: cs =>
    match matchHere r (c :: cs) with
    | some n => some (List.take n (c :: cs))
    | none => reSearch r cs

/-- Structural worker for `reFindall` (fuel bounds the scan steps). -/
def reFindallAux (r : Re) : Nat → List Char → List (List Char)
  | _, [] => []
  | 0, _ :: _ => []
  | fuel + 1, c :: cs =>
    match matchHere r (c :: cs) with
    | some 0 => reFindallAux r fuel cs
    | some (n + 1) =>
      List.take (n + 1) (c :: cs) :: reFindallAux r fuel (List.drop n cs)
    | none => reFindallAux r fuel cs

/-- `re.findall` for group-free patterns: non-overlapping matches, scanning
left to right, zero-width matches advancing by one character. -/
def reFindall (r : Re) (l : List Char) : List (List Char) :=
  reFindallAux r l.length l

/-- Structural worker for `reSub` (fuel bounds the scan steps). -/
def reSubAux (r : Re) (repl : List Char) : Nat → List Char → List Char
  | _, [] => []
  | 0, rest => rest
  | fuel + 1, c :: cs =>
    match matchHere r (c :: cs) with
    | some 0 => repl ++ c :: reSubAux r repl fuel cs
    | some (n + 1) => repl ++ reSubAux r repl fuel (List.drop n cs)
    | none => c :: reSubAux r repl fuel cs

/-- `re.sub(r, repl, s)`: replace every non-overlapping match. -/
def reSub (r : Re) (repl : List Char) (l : List Char) : List Char :=
  reSubAux r repl l.length l

/-- A literal string as a regex. -/
def litR (s : String) : Re :=
  s.toList.foldr (fun c r => Re.seq (Re.chr (fun x => x == c)) r) Re.eps

/-- A literal string as a case-insensitive regex (`re.IGNORECASE`). -/
def litCI (s : String) : Re :=
  s.toList.foldr (fun c r => Re.seq (Re.chr (fun x => x.toLower == c.toLower)) r) Re.eps

/-- Alternation over a non-empty list of branches, left to right. -/
def altList : List Re → Re
  | [] => Re.chr (fun _ => false)
  | [r] => r
  | r :: rs => Re.alt r (altList rs)

/-- `p{n}`: exactly `n` repetitions of a character class. -/
def repN (p : Char → Bool) : Nat → Re
  | 0 => Re.eps
  | n + 1 => Re.seq (Re.chr p) (repN p n)

/-- `p+`: greedy one-or-more over a character class. -/
def rep1 (p : Char → Bool) : Re :=
  Re.seq (Re.chr p) (Re.starC p)

/-- `p{1,2}`: greedy, prefers two characters. -/
def rep12 (p : Char → Bool) : Re :=
  Re.seq (Re.chr p) (Re.opt (Re.chr p))

/-- Python's `\d` (ASCII). -/
def isDigitCh (c : Char) : Bool := c.isDigit

/-- Python's `\w` (ASCII part). -/
def isWordCh (c : Char) : Bool :=
  c.isAlphanum || c = '_'

/-- `.` without `re.DOTALL`: anything but a newline. -/
def isDotCh (c : Char) : Bool := c ≠ '\n'

/-- `.` with `re.DOTALL`. -/
def isAnyCh (_ : Char) : Bool := true

/-! ## Page types

The classifier outputs of both pipelines: the twelve canonical page slots
plus the `additional_content` overflow bucket (string keys in the source,
a closed enumeration here). -/

inductive PageType : Type where
  | home | about | government | departments | services | news | events
  | contact | documents | employment | faqs | accessibility
  | additional_content
deriving DecidableEq, Repr

/-- The string key a `PageType` is written as in the source. -/
def PageType.key : PageType → String
  | .home => "home"
  | .about => "about"
  | .government => "government"
  | .departments => "departments"
  | .services => "services"
  | .news => "news"
  | .events => "events"
  | .contact => "contact"
  | .documents => "documents"
  | .employment => "employment"
  | .faqs => "faqs"
  | .accessibility => "accessibility"
  | .additional_content => "additional_content"

/-! ## `parse_site.py`: page type detection -/

namespace ParseSite

/-- The `keyword_counts` table of `detect_page_type` (`parse_site.py`),
in the dict's insertion order, evaluated on the lowercased content. -/
def keywordCounts (cl : List Char) : List (PageType × Nat) :=
  [ (.government, countSub "mayor".toList cl + countSub "council".toList cl +
      countSub "borough".toList cl),
    (.services, countSub "permit".toList cl + countSub "license".toList cl +
      countSub "utility".toList cl),
    (.news, countSub "news".toList cl + countSub "announcement".toList cl),
    (.events, countSub "event".toList cl + countSub "meeting".toList cl),
    (.contact, countSub "phone".toList cl + countSub "email".toList cl +
      countSub "address".toList cl) ]

/-- Python `max(d, key=d.get)`: the first key attaining the maximal value
(later entries replace the current best only on a strictly greater value). -/
def maxEntry (first : PageType × Nat) (rest : List (PageType × Nat)) :
    PageType × Nat :=
  rest.foldl (fun best x => if x.2 > best.2 then x else best) first

/-- `detect_page_type` from `parse_site.py` (lines 394-488): filename keyword
chain, then title keyword chain, then content keyword scoring with
threshold 3, else the overflow bucket. -/
def detect_page_type (filename title content : String) : PageType :=
  let fl := String.mk (lowerStr filename.toList)
  let tl := String.mk (lowerStr title.toList)
  let cl := lowerStr content.toList
  if strIn "index" fl || fl == "home.html" then .home
  else if strIn "about" fl then .about
  else if strIn "government" fl || strIn "mayor" fl || strIn "council" fl then .government
  else if strIn "department" fl then .departments
  else if strIn "service" fl || strIn "permit" fl then .services
  else if strIn "news" fl || strIn "announcement" fl then .news
  else if strIn "event" fl || strIn "calendar" fl then .events
  else if strIn "contact" fl then .contact
  else if strIn "document" fl || strIn "form" fl then .documents
  else if strIn "job" fl || strIn "employ" fl || strIn "career" fl then .employment
  else if strIn "faq" fl then .faqs
  else if strIn "accessibility" fl || strIn "ada" fl then .accessibility
  else if strIn "about" tl then .about
  else if strIn "government" tl || strIn "mayor" tl || strIn "council" tl then .government
  else if strIn "department" tl then .departments
  else if strIn "service" tl then .services
  else if strIn "news" tl then .news
  else if strIn "event" tl || strIn "calendar" tl then .events
  else if strIn "contact" tl then .contact
  else if strIn "document" tl || strIn "form" tl then .documents
  else if strIn "employment" tl || strIn "job" tl || strIn "career" tl then .employment
  else if strIn "faq" tl || strIn "question" tl then .faqs
  else if strIn "accessibility" tl then .accessibility
  else
    match keywordCounts cl with
    | [] => .additional_content
    | e :: es =>
      let m := maxEntry e es
      if m.2 > 3 then m.1 else .additional_content

/-- True when the lowercased filename triggers some branch of the filename
tier of `detect_page_type` (`parse_site.py`). -/
def filenameSignal (fl : String) : Bool :=
  strIn "index" fl || fl == "home.html" || strIn "about" fl ||
  strIn "government" fl || strIn "mayor" fl || strIn "council" fl ||
  strIn "department" fl || strIn "service" fl || strIn "permit" fl ||
  strIn "news" fl || strIn "announcement" fl || strIn "event" fl ||
  strIn "calendar" fl || strIn "contact" fl || strIn "document" fl ||
  strIn "form" fl || strIn "job" fl || strIn "employ" fl ||
  strIn "career" fl || strIn "faq" fl || strIn "accessibility" fl ||
  strIn "ada" fl

/-- True when the lowercased title triggers some branch of the title tier of
`detect_page_type` (`parse_site.py`). -/
def titleSignal (tl : String) : Bool :=
  strIn "about" tl || strIn "government" tl || strIn "mayor" tl ||
  strIn "council" tl || strIn "department" tl || strIn "service" tl ||
  strIn "news" tl || strIn "event" tl || strIn "calendar" tl ||
  strIn "contact" tl || strIn "document" tl || strIn "form" tl ||
  strIn "employment" tl || strIn "job" tl || strIn "career" tl ||
  strIn "faq" tl || strIn "question" tl || strIn "accessibility" tl

end ParseSite

/-! ## `parse_site_improved.py`: page type detection -/

namespace Improved

/-- `detect_page_type` from `parse_site_improved.py` (lines 445-507): a path
hint, then a filename keyword chain, then a title keyword chain, then the
overflow bucket (this variant has no content-scoring tier). -/
def detect_page_type (filename title content : String) (file_path : String) :
    PageType :=
  let fl := String.mk (lowerStr filename.toList)
  let tl := String.mk (lowerStr title.toList)
  let _cl := lowerStr content.toList
  let pl := String.mk (lowerStr file_path.toList)
  if strIn "/home/news/" pl || strIn "home/news" pl then .news
  else if strIn "index" fl || fl == "home.html" then .home
  else if strIn "news" fl then .news
  else if strIn "contact" fl then .contact
  else if strIn "calendar" fl || strIn "event" fl then .events
  else if strIn "document" fl || strIn "form" fl then .documents
  else if strIn "official" fl || strIn "committee" fl then .government
  else if strIn "meeting" fl then .events
  else if strIn "ordinance" fl || strIn "resolution" fl || strIn "plan" fl then .documents
  else if strIn "waste" fl || strIn "service" fl then .services
  else if strIn "resident" fl || strIn "welcome" fl then .about
  else if strIn "financial" fl || strIn "budget" fl then .documents
  else if strIn "emergency" fl then .services
  else if strIn "right-to-know" fl then .documents
  else if strIn "contact" tl then .contact
  else if strIn "news" tl || strIn "announcement" tl then .news
  else if strIn "event" tl || strIn "calendar" tl then .events
  else if strIn "document" tl then .documents
  else if strIn "official" tl || strIn "government" tl then .government
  else .additional_content

end Improved

example : ParseSite.detect_page_type "about.html" "" "" = PageType.about := by decide
example : Improved.detect_page_type "about.html" "" "" "site/about.html" =
    PageType.additional_content := by decide
example :
    ParseSite.detect_page_type "page1.html" "" "mayor mayor council council" =
    PageType.government := by decide

/-! ## The concrete patterns of the source -/

/-- `[-.\s]` — the optional separator class inside the phone pattern. -/
def isPhoneSep (c : Char) : Bool :=
  c = '-' || c = '.' || pySpace c

/-- `\(?\d{3}\)?[-.\s]?\d{3}[-.\s]?\d{4}` (`extract_phone_numbers` in
`parse_site.py` and the phone search in `parse_and_convert.py`). -/
def phoneRe : Re :=
  Re.seq (Re.opt (Re.chr (fun c => c == '(')))
    (Re.seq (repN isDigitCh 3)
      (Re.seq (Re.opt (Re.chr (fun c => c == ')')))
        (Re.seq (Re.opt (Re.chr isPhoneSep))
          (Re.seq (repN isDigitCh 3)
            (Re.seq (Re.opt (Re.chr isPhoneSep)) (repN isDigitCh 4))))))

/-- `[\w\.-]` — the character class of the e-mail pattern. -/
def isEmailCh (c : Char) : Bool :=
  isWordCh c || c = '.' || c = '-'

/-- `[\w\.-]+@[\w\.-]+\.\w+` (`extract_emails` in `parse_site.py` and the
e-mail searches in `parse_and_convert.py` / `parse_site_improved.py`). -/
def emailRe : Re :=
  Re.seq (rep1 isEmailCh)
    (Re.seq (Re.chr (fun c => c == '@'))
      (Re.seq (rep1 isEmailCh)
        (Re.seq (Re.chr (fun c => c == '.')) (rep1 isWordCh))))

/-- `\d{1,2}/\d{1,2}/\d{4}`. -/
def dateSlashRe : Re :=
  Re.seq (rep12 isDigitCh)
    (Re.seq (Re.chr (fun c => c == '/'))
      (Re.seq (rep12 isDigitCh)
        (Re.seq (Re.chr (fun c => c == '/')) (repN isDigitCh 4))))

/-- `\d{1,2}-\d{1,2}-\d{4}`. -/
def dateDashRe : Re :=
  Re.seq (rep12 isDigitCh)
    (Re.seq (Re.chr (fun c => c == '-'))
      (Re.seq (rep12 isDigitCh)
        (Re.seq (Re.chr (fun c => c == '-')) (repN isDigitCh 4))))

/-- `\d{4}-\d{1,2}-\d{1,2}`. -/
def dateIsoRe : Re :=
  Re.seq (repN isDigitCh 4)
    (Re.seq (Re.chr (fun c => c == '-'))
      (Re.seq (rep12 isDigitCh)
        (Re.seq (Re.chr (fun c => c == '-')) (rep12 isDigitCh))))

/-- The full month names of the fourth date pattern, in source order. -/
def monthNames : List String :=
  ["January", "February", "March", "April", "May", "June", "July",
   "August", "September", "October", "November", "December"]

/-- The abbreviated month names of the fifth date pattern, in source order. -/
def monthAbbrevs : List String :=
  ["Jan", "Feb", "Mar", "Apr", "May", "Jun", "Jul", "Aug", "Sep", "Oct",
   "Nov", "Dec"]

/-- `(?:<months>)\s+\d{1,2},?\s+\d{4}` for a given month alternation. -/
def dateMonthRe (months : List String) : Re :=
  Re.seq (altList (months.map litR))
    (Re.seq (rep1 pySpace)
      (Re.seq (rep12 isDigitCh)
        (Re.seq (Re.opt (Re.chr (fun c => c == ',')))
          (Re.seq (rep1 pySpace) (repN isDigitCh 4)))))

/-- `extract_dates` from `parse_site.py` (lines 255-287): the concatenation
of the `findall` results of the five date patterns, in source order. -/
def extract_dates (text : String) : List String :=
  let t := text.toList
  ((reFindall dateSlashRe t ++ reFindall dateDashRe t ++
    reFindall dateIsoRe t ++ reFindall (dateMonthRe monthNames) t ++
    reFindall (dateMonthRe monthAbbrevs) t).map String.mk)

/-- `extract_phone_numbers` from `parse_site.py` (lines 213-234). -/
def extract_phone_numbers (text : String) : List String :=
  (reFindall phoneRe text.toList).map String.mk

/-- `extract_emails` from `parse_site.py` (lines 237-252). -/
def extract_emails (text : String) : List String :=
  (reFindall emailRe text.toList).map String.mk

example : extract_phone_numbers "Call us at (717) 259-0965" = ["(717) 259-0965"] := by
  decide
example : extract_emails "Contact: info@example.gov" = ["info@example.gov"] := by
  decide
example : extract_dates "Meeting on Jan 15, 2024" = ["Jan 15, 2024"] := by
  decide

/-! ## Parsed records and the canonical page model -/

/-- The dictionary returned by `parse_html_file` for one document. -/
structure PageRecord : Type where
  type : PageType
  title : String
  content : String
  file_path : String
  text_content : String
deriving DecidableEq, Repr

/-- One entry of the `additional_content` overflow list:
`{'title': ..., 'content': ..., 'file': ...}`. -/
structure ExtraRecord : Type where
  title : String
  content : String
  file : String
deriving DecidableEq, Repr

/-- The `home` slot: `{'content': '', 'hero': {}, 'events': [], 'news': []}`.
The `hero` dict starts empty and only ever receives a `title` key, so it is
an `Option String` here; `events` entries are `{'date': ..., 'title': ...}`
pairs. -/
structure HomeSlot : Type where
  content : String
  heroTitle : Option String
  events : List (String × String)
  news : List String
deriving DecidableEq, Repr

/-- The dictionary built by `map_content_to_pages`: twelve canonical slots
plus the overflow list, exactly the keys of the source's initializer. -/
structure Pages : Type where
  home : HomeSlot
  about : String
  government : String
  departments : String
  services : String
  news : String
  events : String
  contact : String
  documents : String
  employment : String
  faqs : String
  accessibility : String
  additional_content : List ExtraRecord
deriving DecidableEq, Repr

/-- The initial `pages` dictionary of `map_content_to_pages`. -/
def initPages : Pages where
  home := { content := "", heroTitle := none, events := [], news := [] }
  about := ""
  government := ""
  departments := ""
  services := ""
  news := ""
  events := ""
  contact := ""
  documents := ""
  employment := ""
  faqs := ""
  accessibility := ""
  additional_content := []

/-- The section-break marker inserted between successive contributions to
the same slot. -/
def sectionBreak : String := "\n\n---\n\n"

/-- `pages[t]['content'] += '\n\n---\n\n' + content` guarded by the truthiness
check `if pages[t]['content']:` — append with a marker when the slot already
has content, otherwise just set it. -/
def appendSlot (cur c : String) : String :=
  if cur ≠ "" then cur ++ sectionBreak ++ c else c

/-- Content of a canonical slot (`none` for the overflow key, which holds a
list rather than a content dict). -/
def slotContent (t : PageType) (p : Pages) : Option String :=
  match t with
  | .home => some p.home.content
  | .about => some p.about
  | .government => some p.government
  | .departments => some p.departments
  | .services => some p.services
  | .news => some p.news
  | .events => some p.events
  | .contact => some p.contact
  | .documents => some p.documents
  | .employment => some p.employment
  | .faqs => some p.faqs
  | .accessibility => some p.accessibility
  | .additional_content => none

/-- Write a canonical slot's content (helper used to state per-step lemmas;
not part of the source, which writes the fields directly). -/
def setSlot (t : PageType) (p : Pages) (s : String) : Pages :=
  match t with
  | .home => { p with home := { p.home with content := s } }
  | .about => { p with about := s }
  | .government => { p with government := s }
  | .departments => { p with departments := s }
  | .services => { p with services := s }
  | .news => { p with news := s }
  | .events => { p with events := s }
  | .contact => { p with contact := s }
  | .documents => { p with documents := s }
  | .employment => { p with employment := s }
  | .faqs => { p with faqs := s }
  | .accessibility => { p with accessibility := s }
  | .additional_content => p

namespace ParseSite

/-- One iteration of the loop of `map_content_to_pages` (`parse_site.py`,
lines 692-721): overflow records are appended to the overflow list; a `home`
record overwrites the home content and hero title and appends up to five
extracted dates as events; any other record is appended to its slot behind a
section-break marker (or sets the slot if it was empty). -/
def mapStep (p : Pages) (r : PageRecord) : Pages :=
  match r.type with
  | .additional_content =>
    { p with additional_content :=
        p.additional_content ++ [⟨r.title, r.content, r.file_path⟩] }
  | .home =>
    let dates := extract_dates r.text_content
    { p with home :=
        { content := r.content
          heroTitle := some r.title
          events := p.home.events ++ (dates.take 5).map (fun d => (d, "Event"))
          news := p.home.news } }
  | t => setSlot t p (appendSlot ((slotContent t p).getD "") r.content)

/-- `map_content_to_pages` from `parse_site.py` (lines 657-722). -/
def map_content_to_pages (parsed_files : List PageRecord) : Pages :=
  parsed_files.foldl mapStep initPages

end ParseSite

namespace Improved

/-- One iteration of the loop of `map_content_to_pages`
(`parse_site_improved.py`, lines 647-666): as in `parse_site.py` but a `home`
record only overwrites the home content and hero title (no date
extraction). -/
def mapStep (p : Pages) (r : PageRecord) : Pages :=
  match r.type with
  | .additional_content =>
    { p with additional_content :=
        p.additional_content ++ [⟨r.title, r.content, r.file_path⟩] }
  | .home =>
    { p with home := { p.home with content := r.content, heroTitle := some r.title } }
  | t => setSlot t p (appendSlot ((slotContent t p).getD "") r.content)

/-- `map_content_to_pages` from `parse_site_improved.py` (lines 621-668). -/
def map_content_to_pages (parsed_files : List PageRecord) : Pages :=
  parsed_files.foldl mapStep initPages

end Improved

/-! ## Aggregation lemmas -/

/-- Content of a canonical slot, with `""` standing in for the overflow key
(never used on it below). -/
def getSlot (t : PageType) (p : Pages) : String :=
  (slotContent t p).getD ""

/-- Folding `appendSlot` over the successive contributions to one slot. -/
def joinSlot (cur : String) (cs : List String) : String :=
  cs.foldl appendSlot cur

theorem ParseSite.getSlot_mapStep (t : PageType) (p : Pages) (r : PageRecord)
    (h1 : t ≠ PageType.home) (h2 : t ≠ PageType.additional_content) :
    getSlot t (ParseSite.mapStep p r) =
      if r.type = t then appendSlot (getSlot t p) r.content else getSlot t p := by
  cases hr : r.type <;> cases t <;>
    simp_all [ParseSite.mapStep, setSlot, getSlot, slotContent]

theorem Improved.getSlot_mapStep_imp (t : PageType) (p : Pages) (r : PageRecord)
    (h1 : t ≠ PageType.home) (h2 : t ≠ PageType.additional_content) :
    getSlot t (Improved.mapStep p r) =
      if r.type = t then appendSlot (getSlot t p) r.content else getSlot t p := by
  cases hr : r.type <;> cases t <;>
    simp_all [Improved.mapStep, setSlot, getSlot, slotContent]

theorem ParseSite.getSlot_foldl (t : PageType)
    (h1 : t ≠ PageType.home) (h2 : t ≠ PageType.additional_content) :
    ∀ (l : List PageRecord) (p : Pages),
      getSlot t (l.foldl ParseSite.mapStep p) =
        joinSlot (getSlot t p)
          ((l.filter (fun r => decide (r.type = t))).map PageRecord.content) := by
  intro l
  induction l with
  | nil => intro p; rfl
  | cons r l ih =>
    intro p
    simp only [List.foldl_cons, List.filter_cons]
    by_cases hr : r.type = t
    · rw [ih, ParseSite.getSlot_mapStep t p r h1 h2, if_pos hr]
      simp only [hr, decide_True, List.map_cons]
      rfl
    · rw [ih, ParseSite.getSlot_mapStep t p r h1 h2, if_neg hr]
      simp [hr]

theorem Improved.getSlot_foldl_imp (t : PageType)
    (h1 : t ≠ PageType.home) (h2 : t ≠ PageType.additional_content) :
    ∀ (l : List PageRecord) (p : Pages),
      getSlot t (l.foldl Improved.mapStep p) =
        joinSlot (getSlot t p)
          ((l.filter (fun r => decide (r.type = t))).map PageRecord.content) := by
  intro l
  induction l with
  | nil => intro p; rfl
  | cons r l ih =>
    intro p
    simp only [List.foldl_cons, List.filter_cons]
    by_cases hr : r.type = t
    · rw [ih, Improved.getSlot_mapStep_imp t p r h1 h2, if_pos hr]
      simp only [hr, decide_True, List.map_cons]
      rfl
    · rw [ih, Improved.getSlot_mapStep_imp t p r h1 h2, if_neg hr]
      simp [hr]

theorem ParseSite.home_content_foldl :
    ∀ (l : List PageRecord) (p : Pages),
      (l.foldl ParseSite.mapStep p).home.content =
        l.foldl
          (fun acc r => if r.type = PageType.home then r.content else acc)
          p.home.content := by
  intro l
  induction l with
  | nil => intro p; rfl
  | cons r l ih =>
    intro p
    simp only [List.foldl_cons]
    rw [ih]
    cases hr : r.type <;> simp [ParseSite.mapStep, hr, setSlot]

theorem ParseSite.home_hero_foldl :
    ∀ (l : List PageRecord) (p : Pages),
      (l.foldl ParseSite.mapStep p).home.heroTitle =
        l.foldl
          (fun acc r => if r.type = PageType.home then some r.title else acc)
          p.home.heroTitle := by
  intro l
  induction l with
  | nil => intro p; rfl
  | cons r l ih =>
    intro p
    simp only [List.foldl_cons]
    rw [ih]
    cases hr : r.type <;> simp [ParseSite.mapStep, hr, setSlot]

theorem Improved.home_content_foldl_imp :
    ∀ (l : List PageRecord) (p : Pages),
      (l.foldl Improved.mapStep p).home.content =
        l.foldl
          (fun acc r => if r.type = PageType.home then r.content else acc)
          p.home.content := by
  intro l
  induction l with
  | nil => intro p; rfl
  | cons r l ih =>
    intro p
    simp only [List.foldl_cons]
    rw [ih]
    cases hr : r.type <;> simp [Improved.mapStep, hr, setSlot]

theorem Improved.home_hero_foldl_imp :
    ∀ (l : List PageRecord) (p : Pages),
      (l.foldl Improved.mapStep p).home.heroTitle =
        l.foldl
          (fun acc r => if r.type = PageType.home then some r.title else acc)
          p.home.heroTitle := by
  intro l
  induction l with
  | nil => intro p; rfl
  | cons r l ih =>
    intro p
    simp only [List.foldl_cons]
    rw [ih]
    cases hr : r.type <;> simp [Improved.mapStep, hr, setSlot]

theorem getLast?_cons_exists {α : Type} (h : α) (t : List α) :
    ∃ x, (h :: t).getLast? = some x := by
  induction t generalizing h with
  | nil => exact ⟨h, rfl⟩
  | cons b t ih =>
    obtain ⟨x, hx⟩ := ih b
    exact ⟨x, by rw [List.getLast?_cons_cons, hx]⟩

/-- A fold that keeps the value of the last element satisfying `P`. -/
theorem foldl_keep_last {α : Type} (P : PageRecord → Prop) [DecidablePred P]
    (f : PageRecord → α) :
    ∀ (l : List PageRecord) (init : α),
      l.foldl (fun acc r => if P r then f r else acc) init =
        (((l.filter (fun r => decide (P r))).getLast?).map f).getD init := by
  intro l
  induction l with
  | nil => intro init; rfl
  | cons r l ih =>
    intro init
    simp only [List.foldl_cons, List.filter_cons]
    by_cases hq : P r
    · simp only [hq, if_pos, ite_true, decide_True]
      rw [ih]
      cases hfl : l.filter (fun r => decide (P r)) with
      | nil => simp
      | cons h t =>
        obtain ⟨x, hx⟩ := getLast?_cons_exists h t
        rw [List.getLast?_cons_cons, hx]
        simp
    · rw [ih]
      simp [hq]

theorem slotContent_eq_getSlot (t : PageType)
    (h : t ≠ PageType.additional_content) (p : Pages) :
    slotContent t p = some (getSlot t p) := by
  cases t <;> simp_all [slotContent, getSlot]

theorem getSlot_initPages (t : PageType) : getSlot t initPages = "" := by
  cases t <;> rfl

/-! ## Claims about aggregation (C1, C7, C9) -/

/-- C1 counterexample.  The claim states that whenever records A then B are
assigned to the same canonical type, the aggregated slot begins with A's
content, then exactly one section-break marker, then B's content.  It fails
on the code in two ways: two `home` records (the home slot is overwritten,
keeping only B), and an earlier record with empty normalized content (the
truthiness guard skips the marker). -/
theorem C1_counterexample :
    (ParseSite.map_content_to_pages
      [⟨PageType.home, "A", "Alpha", "a.html", ""⟩,
       ⟨PageType.home, "B", "Beta", "b.html", ""⟩]).home.content = "Beta" ∧
    "Beta" ≠ "Alpha" ++ sectionBreak ++ "Beta" ∧
    (ParseSite.map_content_to_pages
      [⟨PageType.about, "A", "", "a.html", ""⟩,
       ⟨PageType.about, "B", "Beta", "b.html", ""⟩]).about = "Beta" ∧
    "Beta" ≠ "" ++ sectionBreak ++ "Beta" := by
  refine ⟨rfl, by decide, rfl, by decide⟩

/-- C1 (amended): aggregation preserves discovery order within every
canonical slot other than `home`: if the records assigned to a canonical
type `t` (with `t` neither `home` nor the overflow bucket) are exactly A
then B, and A's normalized content is non-empty, then the aggregated slot
content produced by `map_content_to_pages` is A's content, followed by
exactly one section-break marker, then B's content — in both
`parse_site.py` and `parse_site_improved.py`. -/
theorem C1_aggregation_order (l : List PageRecord) (t : PageType)
    (A B : PageRecord)
    (h1 : t ≠ PageType.home) (h2 : t ≠ PageType.additional_content)
    (hf : l.filter (fun r => decide (r.type = t)) = [A, B])
    (hA : A.content ≠ "") :
    slotContent t (ParseSite.map_content_to_pages l) =
      some (A.content ++ sectionBreak ++ B.content) ∧
    slotContent t (Improved.map_content_to_pages l) =
      some (A.content ++ sectionBreak ++ B.content) := by
  have e1 := ParseSite.getSlot_foldl t h1 h2 l initPages
  have e2 := Improved.getSlot_foldl_imp t h1 h2 l initPages
  rw [hf, getSlot_initPages] at e1 e2
  have hj : joinSlot "" (List.map PageRecord.content [A, B]) =
      A.content ++ sectionBreak ++ B.content := by
    simp only [List.map_cons, List.map_nil, joinSlot, List.foldl_cons,
      List.foldl_nil]
    rw [show appendSlot "" A.content = A.content from by simp [appendSlot]]
    simp [appendSlot, hA]
  rw [hj] at e1 e2
  exact ⟨by rw [slotContent_eq_getSlot t h2, ParseSite.map_content_to_pages, e1],
         by rw [slotContent_eq_getSlot t h2, Improved.map_content_to_pages, e2]⟩

/-- Concrete record used by the C1 witness. -/
def C1recA : PageRecord := ⟨PageType.about, "A", "Alpha", "a.html", ""⟩

/-- Concrete record used by the C1 witness. -/
def C1recB : PageRecord := ⟨PageType.about, "B", "Beta", "b.html", ""⟩

/-- C1 witness: the amended aggregation-order theorem applied to two
concrete `about` records. -/
theorem C1_witness :
    ([C1recA, C1recB].filter (fun r => decide (r.type = PageType.about)) =
      [C1recA, C1recB]) ∧
    slotContent PageType.about
      (ParseSite.map_content_to_pages [C1recA, C1recB]) =
      some ("Alpha" ++ sectionBreak ++ "Beta") := by
  refine ⟨by decide, ?_⟩
  exact (C1_aggregation_order [C1recA, C1recB] PageType.about C1recA C1recB
    (by decide) (by decide) (by decide) (by decide)).1

/-- C7: for every input list of parsed records (including the empty list),
`map_content_to_pages` returns the structure with exactly the twelve
canonical page slots (the overflow key holds a list, not a content slot),
and a slot to which no record was assigned is present with empty content —
in both `parse_site.py` and `parse_site_improved.py`. -/
theorem C7_canonical_shape (l : List PageRecord) (t : PageType) :
    ((slotContent t (ParseSite.map_content_to_pages l)).isSome ↔
      t ≠ PageType.additional_content) ∧
    ((slotContent t (Improved.map_content_to_pages l)).isSome ↔
      t ≠ PageType.additional_content) ∧
    (t ≠ PageType.additional_content →
      l.filter (fun r => decide (r.type = t)) = [] →
      slotContent t (ParseSite.map_content_to_pages l) = some "" ∧
      slotContent t (Improved.map_content_to_pages l) = some "") := by
  refine ⟨?_, ?_, ?_⟩
  · cases t <;> simp [slotContent]
  · cases t <;> simp [slotContent]
  · intro h2 hf
    by_cases h1 : t = PageType.home
    · subst h1
      constructor
      · have e := ParseSite.home_content_foldl l initPages
        rw [foldl_keep_last (fun r => r.type = PageType.home)
          PageRecord.content l, hf] at e
        simp only [slotContent, ParseSite.map_content_to_pages]
        rw [e]; rfl
      · have e := Improved.home_content_foldl_imp l initPages
        rw [foldl_keep_last (fun r => r.type = PageType.home)
          PageRecord.content l, hf] at e
        simp only [slotContent, Improved.map_content_to_pages]
        rw [e]; rfl
    · have e1 := ParseSite.getSlot_foldl t h1 h2 l initPages
      have e2 := Improved.getSlot_foldl_imp t h1 h2 l initPages
      rw [hf, getSlot_initPages] at e1 e2
      simp only [List.map_nil, joinSlot, List.foldl_nil] at e1 e2
      exact ⟨by rw [slotContent_eq_getSlot t h2, ParseSite.map_content_to_pages, e1],
             by rw [slotContent_eq_getSlot t h2, Improved.map_content_to_pages, e2]⟩

/-- C7 witness: the canonical-shape theorem applied to the empty record list
and the `about` slot. -/
theorem C7_witness :
    (([] : List PageRecord).filter
      (fun r => decide (r.type = PageType.about)) = []) ∧
    slotContent PageType.about (ParseSite.map_content_to_pages []) = some "" := by
  refine ⟨rfl, ?_⟩
  exact ((C7_canonical_shape [] PageType.about).2.2 (by decide) rfl).1

/-- C9: the home slot is overwritten, last record wins: if the records
classified `home` are non-empty with last record `r`, the aggregated home
slot holds exactly `r`'s content and hero title (each `home` record replaces
the previous content instead of appending it behind a section-break
marker) — in both `parse_site.py` and `parse_site_improved.py`. -/
theorem C9_home_last_wins (l : List PageRecord) (r : PageRecord)
    (h : (l.filter (fun x => decide (x.type = PageType.home))).getLast? =
      some r) :
    (ParseSite.map_content_to_pages l).home.content = r.content ∧
    (ParseSite.map_content_to_pages l).home.heroTitle = some r.title ∧
    (Improved.map_content_to_pages l).home.content = r.content ∧
    (Improved.map_content_to_pages l).home.heroTitle = some r.title := by
  have e1 := ParseSite.home_content_foldl l initPages
  have e2 := ParseSite.home_hero_foldl l initPages
  have e3 := Improved.home_content_foldl_imp l initPages
  have e4 := Improved.home_hero_foldl_imp l initPages
  rw [foldl_keep_last (fun x => x.type = PageType.home)
    PageRecord.content l, h] at e1 e3
  rw [foldl_keep_last (fun x => x.type = PageType.home)
    (fun x => some x.title) l, h] at e2 e4
  exact ⟨e1, e2, e3, e4⟩

/-- Concrete record used by the C9 witness. -/
def C9recA : PageRecord := ⟨PageType.home, "A", "Alpha", "a.html", ""⟩

/-- Concrete record used by the C9 witness. -/
def C9recB : PageRecord := ⟨PageType.home, "B", "Beta", "b.html", ""⟩

/-- C9 witness: two concrete `home` records; the slot keeps the second. -/
theorem C9_witness :
    (([C9recA, C9recB].filter
        (fun x => decide (x.type = PageType.home))).getLast? = some C9recB) ∧
    (ParseSite.map_content_to_pages [C9recA, C9recB]).home.content =
      "Beta" := by
  refine ⟨by decide, ?_⟩
  exact (C9_home_last_wins [C9recA, C9recB] C9recB (by decide)).1

/-! ## Claims about classification (C2, C4) -/

/-- C2 counterexample.  The claim covers `detect_page_type` in both
pipelines, but the improved classifier's filename keyword table has no
`about` entry: a file named `about.html` with no path, title, or other
signal lands in the overflow bucket instead of `about`. -/
theorem C2_counterexample :
    Improved.detect_page_type "about.html" "" "" "site/about.html" =
      PageType.additional_content ∧
    Improved.detect_page_type "about.html" "" "" "site/about.html" ≠
      PageType.about := by
  exact ⟨by decide, by decide⟩

/-- C2 (amended): in `parse_site.py`, a file named `about.html` is
classified `about` by the filename keyword tier for every page title and
every visible text (the filename tier precedes the title and content
tiers, so no title or content signal is needed or consulted);
`parse_site_improved.py`'s filename table has no `about` keyword and
yields `additional_content` absent other signals. -/
theorem C2_filename_tier_about (title content : String) :
    ParseSite.detect_page_type "about.html" title content = PageType.about := by
  unfold ParseSite.detect_page_type
  rw [if_neg (by decide), if_pos (by decide)]

/-- C4 counterexample.  The claim covers `detect_page_type` in both
pipelines, but the improved classifier has no content-scoring tier: a
document with no filename or title signal whose text contains `mayor`
twice and `council` twice lands in the overflow bucket, not
`government`. -/
theorem C4_counterexample :
    Improved.detect_page_type "page1.html" ""
      "mayor mayor council council" "site/page1.html" =
      PageType.additional_content ∧
    Improved.detect_page_type "page1.html" ""
      "mayor mayor council council" "site/page1.html" ≠
      PageType.government := by
  exact ⟨by decide, by decide⟩

/-- All content-scoring keywords of types other than `government` are
absent from the lowercased content (`parse_site.py` keyword tables). -/
def otherScoresZero (cl : List Char) : Bool :=
  countSub "permit".toList cl == 0 && countSub "license".toList cl == 0 &&
  countSub "utility".toList cl == 0 && countSub "news".toList cl == 0 &&
  countSub "announcement".toList cl == 0 && countSub "event".toList cl == 0 &&
  countSub "meeting".toList cl == 0 && countSub "phone".toList cl == 0 &&
  countSub "email".toList cl == 0 && countSub "address".toList cl == 0

/-- C4 (amended): in `parse_site.py`, for every document whose filename and
title trigger no keyword rule and whose visible text contains `mayor` twice
and `council` twice (and no other scoring keyword), the combined government
keyword count 4 exceeds the threshold 3 and `detect_page_type` returns
`government` via the content-scoring tier rather than `additional_content`;
`parse_site_improved.py` has no content-scoring tier and returns
`additional_content` on such input. -/
theorem C4_content_scoring (filename title content : String)
    (hf : ParseSite.filenameSignal (String.mk (lowerStr filename.toList)) = false)
    (ht : ParseSite.titleSignal (String.mk (lowerStr title.toList)) = false)
    (hm : countSub "mayor".toList (lowerStr content.toList) = 2)
    (hc : countSub "council".toList (lowerStr content.toList) = 2)
    (hb : countSub "borough".toList (lowerStr content.toList) = 0)
    (hz : otherScoresZero (lowerStr content.toList) = true) :
    ParseSite.detect_page_type filename title content = PageType.government := by
  simp only [ParseSite.filenameSignal, Bool.or_eq_false_iff] at hf
  simp only [ParseSite.titleSignal, Bool.or_eq_false_iff] at ht
  simp only [otherScoresZero, Bool.and_eq_true, beq_iff_eq] at hz
  obtain ⟨⟨⟨⟨⟨⟨⟨⟨⟨hz1, hz2⟩, hz3⟩, hz4⟩, hz5⟩, hz6⟩, hz7⟩, hz8⟩, hz9⟩, hz10⟩ := hz
  obtain ⟨⟨⟨⟨⟨⟨⟨⟨⟨⟨⟨⟨⟨⟨⟨⟨⟨⟨⟨⟨⟨hf1, hf2⟩, hf3⟩, hf4⟩, hf5⟩, hf6⟩, hf7⟩,
    hf8⟩, hf9⟩, hf10⟩, hf11⟩, hf12⟩, hf13⟩, hf14⟩, hf15⟩, hf16⟩, hf17⟩,
    hf18⟩, hf19⟩, hf20⟩, hf21⟩, hf22⟩ := hf
  obtain ⟨⟨⟨⟨⟨⟨⟨⟨⟨⟨⟨⟨⟨⟨⟨⟨⟨ht1, ht2⟩, ht3⟩, ht4⟩, ht5⟩, ht6⟩, ht7⟩, ht8⟩,
    ht9⟩, ht10⟩, ht11⟩, ht12⟩, ht13⟩, ht14⟩, ht15⟩, ht16⟩, ht17⟩, ht18⟩ := ht
  unfold ParseSite.detect_page_type
  simp only [hf1, hf2, hf3, hf4, hf5, hf6, hf7, hf8, hf9, hf10, hf11, hf12,
    hf13, hf14, hf15, hf16, hf17, hf18, hf19, hf20, hf21, hf22,
    ht1, ht2, ht3, ht4, ht5, ht6, ht7, ht8, ht9, ht10, ht11, ht12, ht13,
    ht14, ht15, ht16, ht17, ht18, Bool.or_self, Bool.or_false, Bool.false_or,
    if_false, Bool.false_eq_true, ite_false]
  simp only [ParseSite.keywordCounts, hm, hc, hb, hz1, hz2, hz3, hz4, hz5,
    hz6, hz7, hz8, hz9, hz10]
  rfl

/-- C4 witness: a concrete document with no filename or title signal and
content `mayor mayor council council` classifies `government` in
`parse_site.py`. -/
theorem C4_witness :
    ParseSite.filenameSignal
      (String.mk (lowerStr "page1.html".toList)) = false ∧
    ParseSite.titleSignal (String.mk (lowerStr "".toList)) = false ∧
    countSub "mayor".toList
      (lowerStr "mayor mayor council council".toList) = 2 ∧
    otherScoresZero (lowerStr "mayor mayor council council".toList) = true ∧
    ParseSite.detect_page_type "page1.html" ""
      "mayor mayor council council" = PageType.government := by
  refine ⟨by decide, by decide, by decide, by decide, ?_⟩
  exact C4_content_scoring "page1.html" "" "mayor mayor council council"
    (by decide) (by decide) (by decide) (by decide) (by decide) (by decide)

/-! ## `convert_to_markdown` (C6)

`convert_to_markdown` in both `parse_site.py` (lines 353-387) and
`parse_site_improved.py` (lines 423-438) feeds the HTML through the external
`html2text` library (`h.handle`) and then post-processes the resulting text:
`re.sub(r'\n{3,}', '\n\n', markdown)` followed by `.strip()`.  The library
call is external to the repository, so the embedding takes its output as the
argument: the theorem below quantifies over every possible intermediate
text, hence over every HTML input. -/

/-- The newline character class. -/
def isNl (c : Char) : Bool := c = '\n'

/-- `\n{3,}` — three newlines then greedily as many as possible. -/
def blankRunRe : Re :=
  Re.seq (Re.chr isNl)
    (Re.seq (Re.chr isNl) (Re.seq (Re.chr isNl) (Re.starC isNl)))

/-- The post-processing of `convert_to_markdown` applied to the `h.handle`
output: collapse runs of three or more newlines to two, then strip. -/
def convert_to_markdown (handled : String) : String :=
  String.mk (pyStrip (reSub blankRunRe "\n\n".toList handled.toList))

/-- Single-scan form of the newline collapse: `k` pending newlines are
flushed as `min k 2` newlines at a non-newline character or at the end. -/
def collapseAux : Nat → List Char → List Char
  | k, [] => List.replicate (min k 2) '\n'
  | k, c :: cs =>
    if c = '\n' then collapseAux (k + 1) cs
    else List.replicate (min k 2) '\n' ++ c :: collapseAux 0 cs

/-- `noTripleAux k l`: scanning `l` with `k` newlines already pending never
reaches three consecutive newlines. -/
def noTripleAux : Nat → List Char → Bool
  | _, [] => true
  | k, c :: cs =>
    if c = '\n' then decide (k + 1 < 3) && noTripleAux (k + 1) cs
    else noTripleAux 0 cs

/-- `l` has no run of three or more consecutive newline characters. -/
def noTriple (l : List Char) : Bool :=
  noTripleAux 0 l

theorem tryStar_some (p : Char → Bool) :
    ∀ s : List Char, tryStar p s some = some (s.dropWhile p) := by
  intro s
  induction s with
  | nil => rfl
  | cons c cs ih =>
    by_cases hc : p c
    · simp [tryStar, hc, ih, List.dropWhile_cons, Option.orElse]
    · simp [tryStar, hc, List.dropWhile_cons]

theorem length_dropWhile_add (p : Char → Bool) (l : List Char) :
    (l.dropWhile p).length + (l.takeWhile p).length = l.length := by
  induction l with
  | nil => rfl
  | cons c cs ih =>
    by_cases hc : p c
    · simp [List.dropWhile_cons, List.takeWhile_cons, hc]
      omega
    · simp [List.dropWhile_cons, List.takeWhile_cons, hc]

theorem matchHere_blankRun_run (rest : List Char) :
    matchHere blankRunRe ('\n' :: '\n' :: '\n' :: rest) =
      some (3 + (rest.takeWhile isNl).length) := by
  have h := tryStar_some isNl rest
  have hlen := length_dropWhile_add isNl rest
  simp only [matchHere, blankRunRe, mtch,
    show isNl '\n' = true from rfl, if_pos, ite_true, h]
  simp only [Option.map_some', List.length_cons, Option.some.injEq]
  omega

theorem matchHere_chr_head_ne (p : Char → Bool) (b : Re) (c : Char)
    (cs : List Char) (hc : p c = false) :
    matchHere (Re.seq (Re.chr p) b) (c :: cs) = none := by
  simp [matchHere, mtch, hc]

theorem drop_takeWhile_eq_dropWhile (p : Char → Bool) :
    ∀ l : List Char, l.drop (l.takeWhile p).length = l.dropWhile p := by
  intro l
  induction l with
  | nil => rfl
  | cons c cs ih =>
    by_cases hc : p c
    · simp [List.takeWhile_cons, List.dropWhile_cons, hc, ih]
    · simp [List.takeWhile_cons, List.dropWhile_cons, hc]

theorem reSubAux_congr_fuel (r : Re) (repl : List Char) :
    ∀ (f1 : Nat), ∀ (f2 : Nat) (l : List Char),
      l.length ≤ f1 → l.length ≤ f2 →
      reSubAux r repl f1 l = reSubAux r repl f2 l := by
  intro f1
  induction f1 with
  | zero =>
    intro f2 l h1 h2
    have : l = [] := List.eq_nil_of_length_eq_zero (by omega)
    subst this
    cases f2 <;> rfl
  | succ f ih =>
    intro f2 l h1 h2
    cases l with
    | nil => cases f2 <;> rfl
    | cons c cs =>
      obtain ⟨f2', rfl⟩ : ∃ f2', f2 = f2' + 1 := by
        cases f2 with
        | zero => simp at h2
        | succ m => exact ⟨m, rfl⟩
      simp only [List.length_cons] at h1 h2
      simp only [reSubAux]
      cases hm : matchHere r (c :: cs) with
      | none =>
        rw [ih f2' cs (by omega) (by omega)]
      | some n =>
        cases n with
        | zero => dsimp only; rw [ih f2' cs (by omega) (by omega)]
        | succ m =>
          dsimp only
          rw [ih f2' (List.drop m cs)
            (by simp only [List.length_drop]; omega)
            (by simp only [List.length_drop]; omega)]

theorem reSub_cons (r : Re) (repl : List Char) (c : Char) (cs : List Char) :
    reSub r repl (c :: cs) =
      match matchHere r (c :: cs) with
      | some 0 => repl ++ c :: reSub r repl cs
      | some (n + 1) => repl ++ reSub r repl (List.drop n cs)
      | none => c :: reSub r repl cs := by
  simp only [reSub, List.length_cons, reSubAux]
  cases hm : matchHere r (c :: cs) with
  | none => rfl
  | some n =>
    cases n with
    | zero => rfl
    | succ m =>
      dsimp only
      rw [reSubAux_congr_fuel r repl cs.length (List.drop m cs).length
        (List.drop m cs)
        (by simp only [List.length_drop]; omega) (by omega)]

theorem dropWhile_head_not (p : Char → Bool) :
    ∀ (l : List Char) (c : Char) (cs : List Char),
      l.dropWhile p = c :: cs → p c = false := by
  intro l
  induction l with
  | nil => intro c cs h; simp [List.dropWhile] at h
  | cons a l ih =>
    intro c cs h
    by_cases ha : p a
    · rw [List.dropWhile_cons, if_pos ha] at h
      exact ih c cs h
    · rw [List.dropWhile_cons, if_neg ha] at h
      cases h
      simpa using ha

theorem collapseAux_newlines :
    ∀ (cs : List Char) (k : Nat),
      collapseAux k cs =
        collapseAux (k + (cs.takeWhile isNl).length) (cs.dropWhile isNl) := by
  intro cs
  induction cs with
  | nil => intro k; rfl
  | cons c cs ih =>
    intro k
    by_cases hc : c = '\n'
    · subst hc
      rw [show collapseAux k ('\n' :: cs) = collapseAux (k + 1) cs from by
        simp [collapseAux]]
      rw [ih (k + 1)]
      rw [List.takeWhile_cons, List.dropWhile_cons]
      simp only [show isNl '\n' = true from rfl, ite_true, List.length_cons]
      have : k + 1 + (cs.takeWhile isNl).length =
          k + ((cs.takeWhile isNl).length + 1) := by omega
      rw [this]
    · rw [List.takeWhile_cons, List.dropWhile_cons]
      simp [isNl, hc]

theorem collapseAux_flush2 (K : Nat) (hK : 2 ≤ K) (X : List Char)
    (hX : ∀ c cs, X = c :: cs → isNl c = false) :
    collapseAux K X = '\n' :: '\n' :: collapseAux 0 X := by
  cases X with
  | nil =>
    simp only [collapseAux]
    rw [show min K 2 = 2 from by omega]
    rfl
  | cons c cs =>
    have hc : isNl c = false := hX c cs rfl
    have hc' : ¬(c = '\n') := by simpa [isNl] using hc
    simp only [collapseAux, if_neg hc']
    rw [show min K 2 = 2 from by omega]
    rfl

theorem reSub_blankRun_eq_collapse :
    ∀ (n : Nat) (l : List Char), l.length ≤ n →
      reSub blankRunRe ['\n', '\n'] l = collapseAux 0 l := by
  intro n
  induction n with
  | zero =>
    intro l hl
    have : l = [] := List.eq_nil_of_length_eq_zero (by omega)
    subst this
    rfl
  | succ n ih =>
    intro l hl
    cases l with
    | nil => rfl
    | cons c cs =>
      simp only [List.length_cons] at hl
      by_cases hc : c = '\n'
      · subst hc
        cases cs with
        | nil => decide
        | cons c2 cs2 =>
          simp only [List.length_cons] at hl
          by_cases hc2 : c2 = '\n'
          · subst hc2
            cases cs2 with
            | nil => decide
            | cons c3 cs3 =>
              simp only [List.length_cons] at hl
              by_cases hc3 : c3 = '\n'
              · subst hc3
                rw [reSub_cons, matchHere_blankRun_run cs3]
                have hsucc : 3 + (cs3.takeWhile isNl).length =
                    (2 + (cs3.takeWhile isNl).length) + 1 := by omega
                rw [hsucc]
                dsimp only
                have hdrop : List.drop (2 + (cs3.takeWhile isNl).length)
                    ('\n' :: '\n' :: cs3) = cs3.dropWhile isNl := by
                  rw [show 2 + (cs3.takeWhile isNl).length =
                    (cs3.takeWhile isNl).length + 1 + 1 from by omega]
                  rw [List.drop_succ_cons, List.drop_succ_cons,
                    drop_takeWhile_eq_dropWhile]
                rw [hdrop]
                have hlen2 := length_dropWhile_add isNl cs3
                rw [ih (cs3.dropWhile isNl) (by omega)]
                have hrhs : collapseAux 0 ('\n' :: '\n' :: '\n' :: cs3) =
                    collapseAux (3 + (cs3.takeWhile isNl).length)
                      (cs3.dropWhile isNl) := by
                  rw [show collapseAux 0 ('\n' :: '\n' :: '\n' :: cs3) =
                    collapseAux 3 cs3 from by simp [collapseAux]]
                  rw [collapseAux_newlines cs3 3]
                rw [hrhs,
                  collapseAux_flush2 (3 + (cs3.takeWhile isNl).length)
                    (by omega) (cs3.dropWhile isNl)
                    (fun c cs h => dropWhile_head_not isNl cs3 c cs h)]
                rfl
              · rw [reSub_cons]
                have hm : matchHere blankRunRe ('\n' :: '\n' :: c3 :: cs3) =
                    none := by
                  simp [matchHere, blankRunRe, mtch,
                    show isNl '\n' = true from rfl,
                    show isNl c3 = false from by simp [isNl, hc3]]
                rw [hm]
                dsimp only
                rw [ih ('\n' :: c3 :: cs3) (by simp; omega)]
                simp [collapseAux, hc3]
          · rw [reSub_cons]
            have hm : matchHere blankRunRe ('\n' :: c2 :: cs2) = none := by
              simp [matchHere, blankRunRe, mtch,
                show isNl '\n' = true from rfl,
                show isNl c2 = false from by simp [isNl, hc2]]
            rw [hm]
            dsimp only
            rw [ih (c2 :: cs2) (by simp; omega)]
            simp [collapseAux, hc2]
      · rw [reSub_cons]
        have hm : matchHere blankRunRe (c :: cs) = none :=
          matchHere_chr_head_ne isNl _ c cs (by simp [isNl, hc])
        rw [hm]
        dsimp only
        rw [ih cs (by omega)]
        simp [collapseAux, hc]

theorem noTripleAux_mono :
    ∀ (l : List Char) (i j : Nat), i ≤ j →
      noTripleAux j l = true → noTripleAux i l = true := by
  intro l
  induction l with
  | nil => intro i j _ _; rfl
  | cons c cs ih =>
    intro i j hij h
    by_cases hc : c = '\n'
    · simp only [noTripleAux, hc, if_pos, ite_true, Bool.and_eq_true,
        decide_eq_true_eq] at h ⊢
      exact ⟨by omega, ih (i + 1) (j + 1) (by omega) h.2⟩
    · simp only [noTripleAux, hc, ite_false] at h ⊢
      exact h

theorem noTripleAux_flush (m : Nat) (hm : m ≤ 2) (c : Char) (hc : ¬c = '\n')
    (T : List Char) (hT : noTripleAux 0 T = true) :
    noTripleAux 0 (List.replicate m '\n' ++ c :: T) = true := by
  interval_cases m <;>
    simp only [List.replicate, List.nil_append, List.cons_append,
      noTripleAux, hc, ite_false, ite_true, Bool.and_eq_true,
      decide_eq_true_eq] <;> simp_all

theorem noTripleAux_collapseAux :
    ∀ (l : List Char) (k : Nat), noTripleAux 0 (collapseAux k l) = true := by
  intro l
  induction l with
  | nil =>
    intro k
    simp only [collapseAux]
    have h3 : min k 2 = 0 ∨ min k 2 = 1 ∨ min k 2 = 2 := by omega
    rcases h3 with h | h | h <;> rw [h] <;> decide
  | cons c cs ih =>
    intro k
    by_cases hc : c = '\n'
    · simpa only [collapseAux, hc, ite_true] using ih (k + 1)
    · simp only [collapseAux, hc, ite_false]
      exact noTripleAux_flush (min k 2) (by omega) c hc (collapseAux 0 cs) (ih 0)

theorem noTriple_tail (c : Char) (cs : List Char)
    (h : noTriple (c :: cs) = true) : noTriple cs = true := by
  by_cases hc : c = '\n'
  · simp only [noTriple, noTripleAux, hc, ite_true, Bool.and_eq_true] at h
    exact noTripleAux_mono cs 0 1 (by omega) h.2
  · simpa only [noTriple, noTripleAux, hc, ite_false] using h

theorem noTriple_dropWhile (p : Char → Bool) :
    ∀ (l : List Char), noTriple l = true →
      noTriple (l.dropWhile p) = true := by
  intro l
  induction l with
  | nil => intro h; exact h
  | cons c cs ih =>
    intro h
    by_cases hc : p c
    · rw [List.dropWhile_cons, if_pos hc]
      exact ih (noTriple_tail c cs h)
    · rwa [List.dropWhile_cons, if_neg hc]

theorem noTripleAux_of_prefix :
    ∀ (l1 l2 : List Char) (k : Nat), l1 <+: l2 →
      noTripleAux k l2 = true → noTripleAux k l1 = true := by
  intro l1
  induction l1 with
  | nil => intro l2 k _ _; rfl
  | cons c cs ih =>
    intro l2 k hp h
    obtain ⟨t, rfl⟩ := hp
    by_cases hc : c = '\n'
    · simp only [List.cons_append, noTripleAux, hc, ite_true,
        Bool.and_eq_true] at h ⊢
      exact ⟨h.1, ih (cs ++ t) (k + 1) ⟨t, rfl⟩ h.2⟩
    · simp only [List.cons_append, noTripleAux, hc, ite_false] at h ⊢
      exact ih (cs ++ t) 0 ⟨t, rfl⟩ h

theorem rstrip_pref_self (l : List Char) : rstrip l <+: l := by
  obtain ⟨pre, hpre⟩ := List.dropWhile_suffix (l := l.reverse) pySpace
  refine ⟨pre.reverse, ?_⟩
  have := congrArg List.reverse hpre
  simpa [rstrip] using this

theorem head?_dropWhile_not (p : Char → Bool) :
    ∀ (l : List Char) (c : Char), (l.dropWhile p).head? = some c →
      p c = false := by
  intro l
  induction l with
  | nil => intro c h; simp [List.dropWhile] at h
  | cons a l ih =>
    intro c h
    by_cases ha : p a
    · rw [List.dropWhile_cons, if_pos ha] at h
      exact ih c h
    · rw [List.dropWhile_cons, if_neg ha] at h
      simp only [List.head?_cons, Option.some.injEq] at h
      subst h
      simpa using ha

theorem head?_of_prefix (l1 l2 : List Char) (c : Char) (hp : l1 <+: l2)
    (h : l1.head? = some c) : l2.head? = some c := by
  obtain ⟨t, rfl⟩ := hp
  cases l1 with
  | nil => simp at h
  | cons a l => simpa using h

/-! ## Claim C6: markdown normalization whitespace contract -/

/-- C6: for every intermediate text produced by the `html2text` call (hence
for every HTML input), the output of `convert_to_markdown` has no leading or
trailing whitespace, and after the `\n{3,} → \n\n` collapse the output never
contains three or more consecutive newline characters. -/
theorem C6_markdown_whitespace (handled : String) :
    (∀ c, (convert_to_markdown handled).toList.head? = some c →
      pySpace c = false) ∧
    (∀ c, (convert_to_markdown handled).toList.getLast? = some c →
      pySpace c = false) ∧
    noTriple (convert_to_markdown handled).toList = true := by
  have hval : (convert_to_markdown handled).toList =
      rstrip ((reSub blankRunRe ['\n', '\n'] handled.toList).dropWhile
        pySpace) := by
    simp only [convert_to_markdown, pyStrip, lstrip]
    rfl
  set R := reSub blankRunRe ['\n', '\n'] handled.toList with hR
  set y := R.dropWhile pySpace with hy
  refine ⟨?_, ?_, ?_⟩
  · intro c h
    rw [hval] at h
    have h2 : y.head? = some c :=
      head?_of_prefix (rstrip y) y c (rstrip_pref_self y) h
    exact head?_dropWhile_not pySpace R c h2
  · intro c h
    rw [hval] at h
    have h2 : (y.reverse.dropWhile pySpace).head? = some c := by
      rw [rstrip] at h
      rwa [List.getLast?_reverse] at h
    exact head?_dropWhile_not pySpace y.reverse c h2
  · have hcol : noTriple R = true := by
      rw [hR, reSub_blankRun_eq_collapse handled.toList.length
        handled.toList (by omega)]
      exact noTripleAux_collapseAux handled.toList 0
    have hdw : noTriple y = true := noTriple_dropWhile pySpace R hcol
    rw [hval]
    exact noTripleAux_of_prefix (rstrip y) y 0 (rstrip_pref_self y) hdw

/-- C6 witness: the whitespace contract evaluated on a concrete intermediate
text with surrounding blanks and a four-newline run. -/
theorem C6_witness :
    (convert_to_markdown " a\n\n\n\nb ").toList.head? = some 'a' ∧
    pySpace 'a' = false ∧
    noTriple (convert_to_markdown " a\n\n\n\nb ").toList = true := by
  refine ⟨by decide, ?_, ?_⟩
  · exact (C6_markdown_whitespace " a\n\n\n\nb ").1 'a' (by decide)
  · exact (C6_markdown_whitespace " a\n\n\n\nb ").2.2

/-! ## `templates/layouts.py` (C8)

The five layout functions and the dispatch table.  The `metadata` and
`page_data` dicts are modelled by the fields the layouts read: `contact`
(phone/email/hours, empty string for a missing key) and `events` (a list of
`(date, title)` pairs — the `.get(..., "TBD")`/`.get(..., "Event")` defaults
never fire because every event dict built by the pipeline carries both
keys). -/

/-- The contact sub-dict as read by `layout_b_two_column`. -/
structure LayoutContact : Type where
  phone : String
  email : String
  hours : String
deriving DecidableEq, Repr

/-- The metadata dict as read by the layouts. -/
structure LayoutMeta : Type where
  contact : LayoutContact
deriving DecidableEq, Repr

/-- The page-data dict as read by the layouts. -/
structure LayoutData : Type where
  events : List (String × String)
deriving DecidableEq, Repr

namespace Layouts

def layout_a_single_column (content_html : String) (_metadata : LayoutMeta)
    (_page_data : LayoutData) : String :=
  "\n<div class=\"layout layout-a\" data-layout=\"a\">\n" ++
  "    <div class=\"content-wrapper single-column\">\n        " ++
  content_html ++
  "\n    </div>\n</div>\n"

def layout_b_two_column (content_html : String) (metadata : LayoutMeta)
    (_page_data : LayoutData) : String :=
  let contact := metadata.contact
  let sidebar_items : List String :=
    (if contact.phone ≠ "" then
      ["\n        <div class=\"sidebar-card\" data-type=\"contact-card\">\n" ++
       "            <h3 data-type=\"card-title\">📞 Contact</h3>\n" ++
       "            <p data-type=\"phone\">" ++ contact.phone ++
       "</p>\n        </div>"]
     else []) ++
    (if contact.email ≠ "" then
      ["\n        <div class=\"sidebar-card\" data-type=\"contact-card\">\n" ++
       "            <h3 data-type=\"card-title\">✉️ Email</h3>\n" ++
       "            <p data-type=\"email\"><a href=\"mailto:" ++
       contact.email ++ "\">" ++ contact.email ++
       "</a></p>\n        </div>"]
     else []) ++
    (if contact.hours ≠ "" then
      ["\n        <div class=\"sidebar-card\" data-type=\"hours-card\">\n" ++
       "            <h3 data-type=\"card-title\">🕐 Hours</h3>\n" ++
       "            <p data-type=\"hours\">" ++ contact.hours ++
       "</p>\n        </div>"]
     else [])
  let sidebar_html :=
    if sidebar_items ≠ [] then String.intercalate "\n" sidebar_items
    else "<div class=\"sidebar-card\"><p>Additional information</p></div>"
  "\n<div class=\"layout layout-b\" data-layout=\"b\">\n" ++
  "    <div class=\"content-wrapper two-column\">\n" ++
  "        <div class=\"main-content\">\n            " ++ content_html ++
  "\n        </div>\n        <aside class=\"sidebar\">\n            " ++
  sidebar_html ++
  "\n        </aside>\n    </div>\n</div>\n"

def layout_c_card_grid (content_html : String) (_metadata : LayoutMeta)
    (_page_data : LayoutData) : String :=
  "\n<div class=\"layout layout-c\" data-layout=\"c\">\n" ++
  "    <div class=\"content-wrapper card-grid\">\n        " ++
  content_html ++
  "\n    </div>\n</div>\n"

def layout_d_hero_featured (content_html : String) (_metadata : LayoutMeta)
    (page_data : LayoutData) : String :=
  let events := page_data.events.take 3
  let events_html :=
    if events ≠ [] then
      "\n        <div class=\"featured-section\" data-type=\"events\">\n" ++
      "            <h2 data-type=\"section-heading\">Upcoming Events</h2>\n" ++
      "            <div class=\"featured-grid\">" ++
      String.join (events.map (fun event =>
        "\n                <div class=\"featured-card\" data-type=\"event-card\">\n" ++
        "                    <span class=\"featured-date\" data-type=\"event-date\">" ++
        event.1 ++
        "</span>\n                    <h3 data-type=\"event-title\">" ++
        event.2 ++
        "</h3>\n                </div>")) ++
      "</div></div>"
    else ""
  "\n<div class=\"layout layout-d\" data-layout=\"d\">\n" ++
  "    <div class=\"hero-section\" data-type=\"hero\">\n" ++
  "        <div class=\"hero-content\">\n            " ++ content_html ++
  "\n        </div>\n    </div>\n    " ++ events_html ++ "\n</div>\n"

def layout_e_list_compact (content_html : String) (_metadata : LayoutMeta)
    (_page_data : LayoutData) : String :=
  "\n<div class=\"layout layout-e\" data-layout=\"e\">\n" ++
  "    <div class=\"content-wrapper compact-list\">\n        " ++
  content_html ++
  "\n    </div>\n</div>\n"

/-- The `LAYOUTS` dict of `templates/layouts.py`. -/
def LAYOUTS : List (String × (String → LayoutMeta → LayoutData → String)) :=
  [("a", layout_a_single_column),
   ("b", layout_b_two_column),
   ("c", layout_c_card_grid),
   ("d", layout_d_hero_featured),
   ("e", layout_e_list_compact)]

/-- The `DEFAULT_LAYOUT_MAP` dict of `templates/layouts.py`
(lines 137-159). -/
def DEFAULT_LAYOUT_MAP : List (String × String) :=
  [("home", "d"), ("about", "a"), ("government", "b"), ("departments", "c"),
   ("services", "c"), ("news", "c"), ("events", "c"), ("contact", "b"),
   ("documents", "e"), ("employment", "e"), ("faqs", "e"),
   ("accessibility", "a")]

/-- `dict.get(k, d)`. -/
def lookupD {α : Type} (l : List (String × α)) (k : String) (d : α) : α :=
  (List.lookup k l).getD d

/-- `get_layout` from `templates/layouts.py` (lines 162-174):
`layout_key = layout_override or DEFAULT_LAYOUT_MAP.get(page_name, 'a')`
(`None` and the empty string are falsy), then
`LAYOUTS.get(layout_key, layout_a_single_column)`. -/
def get_layout (page_name : String) (layout_override : Option String) :
    String → LayoutMeta → LayoutData → String :=
  let layout_key :=
    match layout_override with
    | some s => if s = "" then lookupD DEFAULT_LAYOUT_MAP page_name "a" else s
    | none => lookupD DEFAULT_LAYOUT_MAP page_name "a"
  lookupD LAYOUTS layout_key layout_a_single_column

end Layouts

/-- The twelve canonical page names (keys of `DEFAULT_LAYOUT_MAP`). -/
def canonicalPageKeys : List String :=
  ["home", "about", "government", "departments", "services", "news",
   "events", "contact", "documents", "employment", "faqs", "accessibility"]

/-- The five layout identifiers. -/
def layoutKeys : List String := ["a", "b", "c", "d", "e"]

theorem lookupD_LAYOUTS_cases (k : String) :
    Layouts.lookupD Layouts.LAYOUTS k Layouts.layout_a_single_column =
        Layouts.layout_a_single_column ∨
    Layouts.lookupD Layouts.LAYOUTS k Layouts.layout_a_single_column =
        Layouts.layout_b_two_column ∨
    Layouts.lookupD Layouts.LAYOUTS k Layouts.layout_a_single_column =
        Layouts.layout_c_card_grid ∨
    Layouts.lookupD Layouts.LAYOUTS k Layouts.layout_a_single_column =
        Layouts.layout_d_hero_featured ∨
    Layouts.lookupD Layouts.LAYOUTS k Layouts.layout_a_single_column =
        Layouts.layout_e_list_compact := by
  by_cases ha : k = "a"
  · subst ha; left; rfl
  by_cases hb : k = "b"
  · subst hb; right; left; rfl
  by_cases hc : k = "c"
  · subst hc; right; right; left; rfl
  by_cases hd : k = "d"
  · subst hd; right; right; right; left; rfl
  by_cases he : k = "e"
  · subst he; right; right; right; right; rfl
  left
  simp [Layouts.lookupD, Layouts.LAYOUTS, List.lookup,
    beq_eq_false_iff_ne.mpr ha, beq_eq_false_iff_ne.mpr hb,
    beq_eq_false_iff_ne.mpr hc, beq_eq_false_iff_ne.mpr hd,
    beq_eq_false_iff_ne.mpr he]

theorem lookupD_map_not_found (page_name : String)
    (hp : page_name ∉ canonicalPageKeys) :
    Layouts.lookupD Layouts.DEFAULT_LAYOUT_MAP page_name "a" = "a" := by
  simp only [canonicalPageKeys, List.mem_cons, List.not_mem_nil, or_false,
    not_or] at hp
  obtain ⟨h1, h2, h3, h4, h5, h6, h7, h8, h9, h10, h11, h12⟩ := hp
  have e1 : (page_name == "home") = false := beq_eq_false_iff_ne.mpr h1
  have e2 : (page_name == "about") = false := beq_eq_false_iff_ne.mpr h2
  have e3 : (page_name == "government") = false := beq_eq_false_iff_ne.mpr h3
  have e4 : (page_name == "departments") = false := beq_eq_false_iff_ne.mpr h4
  have e5 : (page_name == "services") = false := beq_eq_false_iff_ne.mpr h5
  have e6 : (page_name == "news") = false := beq_eq_false_iff_ne.mpr h6
  have e7 : (page_name == "events") = false := beq_eq_false_iff_ne.mpr h7
  have e8 : (page_name == "contact") = false := beq_eq_false_iff_ne.mpr h8
  have e9 : (page_name == "documents") = false := beq_eq_false_iff_ne.mpr h9
  have e10 : (page_name == "employment") = false := beq_eq_false_iff_ne.mpr h10
  have e11 : (page_name == "faqs") = false := beq_eq_false_iff_ne.mpr h11
  have e12 : (page_name == "accessibility") = false :=
    beq_eq_false_iff_ne.mpr h12
  simp [Layouts.lookupD, Layouts.DEFAULT_LAYOUT_MAP, List.lookup,
    e1, e2, e3, e4, e5, e6, e7, e8, e9, e10, e11, e12]

/-- C8: for every page name outside the twelve canonical types and every
layout override that is not one of the five identifiers (including a missing
or empty override), `get_layout` returns the single-column layout A
function; and layout dispatch is total — for every page name and override it
returns one of the five layout functions, never failing on a missing
mapping. -/
theorem C8_layout_fallback (page_name : String) (ov : Option String)
    (hp : page_name ∉ canonicalPageKeys)
    (ho : ∀ s, ov = some s → s ∉ layoutKeys) :
    Layouts.get_layout page_name ov = Layouts.layout_a_single_column ∧
    (∀ (p : String) (o : Option String),
      Layouts.get_layout p o = Layouts.layout_a_single_column ∨
      Layouts.get_layout p o = Layouts.layout_b_two_column ∨
      Layouts.get_layout p o = Layouts.layout_c_card_grid ∨
      Layouts.get_layout p o = Layouts.layout_d_hero_featured ∨
      Layouts.get_layout p o = Layouts.layout_e_list_compact) := by
  constructor
  · have hmap := lookupD_map_not_found page_name hp
    cases ov with
    | none =>
      simp only [Layouts.get_layout, hmap]
      rfl
    | some s =>
      by_cases hs : s = ""
      · simp only [Layouts.get_layout, hs, if_pos, ite_true, hmap]
        rfl
      · have hmem := ho s rfl
        simp only [layoutKeys, List.mem_cons, List.not_mem_nil, or_false,
          not_or] at hmem
        obtain ⟨ka, kb, kc, kd, ke⟩ := hmem
        simp only [Layouts.get_layout, hs, ite_false]
        simp [Layouts.lookupD, Layouts.LAYOUTS, List.lookup,
          beq_eq_false_iff_ne.mpr ka, beq_eq_false_iff_ne.mpr kb,
          beq_eq_false_iff_ne.mpr kc, beq_eq_false_iff_ne.mpr kd,
          beq_eq_false_iff_ne.mpr ke]
  · intro p o
    simp only [Layouts.get_layout]
    exact lookupD_LAYOUTS_cases _

/-- C8 witness: an unknown page with an unknown override dispatches to
layout A. -/
theorem C8_witness :
    ("blog" ∉ canonicalPageKeys) ∧ ("z" ∉ layoutKeys) ∧
    Layouts.get_layout "blog" (some "z") =
      Layouts.layout_a_single_column := by
  refine ⟨by decide, by decide, ?_⟩
  exact (C8_layout_fallback "blog" (some "z") (by decide)
    (fun s hs => by cases hs; decide)).1

/-! ## `parse_and_convert.py`: metadata extraction (C3)

`WebsiteParser.extract_metadata` folds over the first twenty documents; every
field is guarded by `if not <field already set>`, so the first non-empty
match wins.  A document is modelled by what the method reads from its soup:
the `<title>` text, the `<img>` tags (src/alt/class attributes, empty string
for a missing attribute), and the visible text. -/

/-- An `<img>` tag as read by the metadata extractor. -/
structure Img : Type where
  src : String
  alt : String
  cls : String
deriving DecidableEq, Repr

/-- One parsed document as read by `extract_metadata`. -/
structure DocModel : Type where
  title : Option String
  imgs : List Img
  text : String
deriving DecidableEq, Repr

/-- Case-insensitive substring test (`re.compile(needle, re.IGNORECASE)`
searched in `hay`). -/
def containsCI (needle hay : String) : Bool :=
  containsSub (lowerStr needle.toList) (lowerStr hay.toList)

/-- `\s*[-|:]\s*Home.*` with `re.IGNORECASE`. -/
def homeSuffixRe : Re :=
  Re.seq (Re.starC pySpace)
    (Re.seq (Re.chr (fun c => c = '-' || c = '|' || c = ':'))
      (Re.seq (Re.starC pySpace)
        (Re.seq (litCI "Home") (Re.starC isDotCh))))

/-- `\s*[-|:]\s*Welcome.*` with `re.IGNORECASE`. -/
def welcomeSuffixRe : Re :=
  Re.seq (Re.starC pySpace)
    (Re.seq (Re.chr (fun c => c = '-' || c = '|' || c = ':'))
      (Re.seq (Re.starC pySpace)
        (Re.seq (litCI "Welcome") (Re.starC isDotCh))))

/-- `[\w\s]`. -/
def isWordSpace (c : Char) : Bool := isWordCh c || pySpace c

/-- `[,\s]`. -/
def isCommaSpace (c : Char) : Bool := c = ',' || pySpace c

/-- `[A-Z]`. -/
def isUpperCh (c : Char) : Bool := 'A' ≤ c && c ≤ 'Z'

/-- The address pattern of `parse_and_convert.py`:
`\d+\s+[\w\s]+(?:Street|St|...|Circle|Cir)[,\s]+[\w\s]+,\s*[A-Z]{2}\s+\d{5}`
(case-sensitive). -/
def addressConvRe : Re :=
  Re.seq (rep1 isDigitCh)
    (Re.seq (rep1 pySpace)
      (Re.seq (rep1 isWordSpace)
        (Re.seq (altList [litR "Street", litR "St", litR "Avenue",
            litR "Ave", litR "Road", litR "Rd", litR "Boulevard",
            litR "Blvd", litR "Lane", litR "Ln", litR "Drive", litR "Dr",
            litR "Court", litR "Ct", litR "Circle", litR "Cir"])
          (Re.seq (rep1 isCommaSpace)
            (Re.seq (rep1 isWordSpace)
              (Re.seq (Re.chr (fun c => c = ','))
                (Re.seq (Re.starC pySpace)
                  (Re.seq (repN isUpperCh 2)
                    (Re.seq (rep1 pySpace) (repN isDigitCh 5))))))))))

/-- The office-hours pattern of `parse_and_convert.py`:
`(Monday|Mon).*?(Friday|Fri).*?\d{1,2}:\d{2}\s*(?:AM|PM|am|pm)` with
`re.IGNORECASE` (no `re.DOTALL`: `.` stops at newlines). -/
def hoursConvRe : Re :=
  Re.seq (Re.alt (litCI "Monday") (litCI "Mon"))
    (Re.seq (Re.starCL isDotCh)
      (Re.seq (Re.alt (litCI "Friday") (litCI "Fri"))
        (Re.seq (Re.starCL isDotCh)
          (Re.seq (rep12 isDigitCh)
            (Re.seq (Re.chr (fun c => c = ':'))
              (Re.seq (repN isDigitCh 2)
                (Re.seq (Re.starC pySpace)
                  (altList [litCI "AM", litCI "PM", litCI "am",
                    litCI "pm"]))))))))

namespace ParseAndConvert

/-- The contact sub-dict of `self.metadata`. -/
structure Contact : Type where
  phone : String
  email : String
  address : String
  hours : String
deriving DecidableEq, Repr

/-- The parts of `self.metadata` written by `extract_metadata`. -/
structure Meta : Type where
  site_name : String
  logo_url : String
  contact : Contact
deriving DecidableEq, Repr

/-- `self.metadata` as initialized in `__init__`. -/
def initMeta : Meta :=
  { site_name := "", logo_url := "",
    contact := { phone := "", email := "", address := "", hours := "" } }

/-- Site name from the `<title>` tag: strip, then remove a
`- Home...`/`- Welcome...` suffix (first block of the loop body). -/
def stepName (m : Meta) (d : DocModel) : Meta :=
  if m.site_name = "" then
    match d.title with
    | some t =>
      let n := pyStrip t.toList
      let n := reSub homeSuffixRe [] n
      let n := reSub welcomeSuffixRe [] n
      { m with site_name := String.mk n }
    | none => m
  else m

/-- Site name fallback from a logo's alt text. -/
def stepNameAlt (m : Meta) (d : DocModel) : Meta :=
  if m.site_name = "" then
    match d.imgs.find? (fun i => containsCI "logo" i.alt) with
    | some i => { m with site_name := i.alt }
    | none => m
  else m

/-- Logo URL: first image with `logo` in src, else alt, else class. -/
def stepLogo (m : Meta) (d : DocModel) : Meta :=
  if m.logo_url = "" then
    match (d.imgs.find? (fun i => containsCI "logo" i.src)).orElse
        (fun _ => (d.imgs.find? (fun i => containsCI "logo" i.alt)).orElse
          (fun _ => d.imgs.find? (fun i => containsCI "logo" i.cls))) with
    | some i => if i.src ≠ "" then { m with logo_url := i.src } else m
    | none => m
  else m

/-- Phone: first match of the phone pattern, kept only if unset. -/
def stepPhone (m : Meta) (d : DocModel) : Meta :=
  if m.contact.phone = "" then
    match reSearch phoneRe d.text.toList with
    | some p => { m with contact := { m.contact with phone := String.mk p } }
    | none => m
  else m

/-- E-mail: first match of the e-mail pattern, kept only if unset. -/
def stepEmail (m : Meta) (d : DocModel) : Meta :=
  if m.contact.email = "" then
    match reSearch emailRe d.text.toList with
    | some p => { m with contact := { m.contact with email := String.mk p } }
    | none => m
  else m

/-- Address: first match of the address pattern, kept only if unset. -/
def stepAddress (m : Meta) (d : DocModel) : Meta :=
  if m.contact.address = "" then
    match reSearch addressConvRe d.text.toList with
    | some p =>
      { m with contact := { m.contact with address := String.mk p } }
    | none => m
  else m

/-- Hours: first match of the hours pattern, kept only if unset. -/
def stepHours (m : Meta) (d : DocModel) : Meta :=
  if m.contact.hours = "" then
    match reSearch hoursConvRe d.text.toList with
    | some p => { m with contact := { m.contact with hours := String.mk p } }
    | none => m
  else m

/-- The loop body of `WebsiteParser.extract_metadata` for one document, in
source order. -/
def processDoc (m : Meta) (d : DocModel) : Meta :=
  stepHours
    (stepAddress
      (stepEmail (stepPhone (stepLogo (stepNameAlt (stepName m d) d) d) d) d)
    d) d

/-- Python `str.title()` (ASCII): uppercase a letter after a non-letter,
lowercase a letter after a letter. -/
def pyTitle : Bool → List Char → List Char
  | _, [] => []
  | prevAlpha, c :: cs =>
    if c.isAlpha then
      (if prevAlpha then c.toLower else c.toUpper) :: pyTitle true cs
    else c :: pyTitle false cs

/-- `WebsiteParser.extract_metadata` (lines 98-165): fold the per-document
updates over the first twenty documents; if no site name was found, derive
one from the source folder name. -/
def extract_metadata (html_files : List DocModel) (source_dir_name : String) :
    Meta :=
  let m := (html_files.take 20).foldl processDoc initMeta
  if m.site_name = "" then
    { m with site_name := String.mk (pyTitle false
        (source_dir_name.toList.map
          (fun c => if c = '-' || c = '_' then ' ' else c))) }
  else m

end ParseAndConvert

example :
    (ParseAndConvert.extract_metadata
      [⟨some "Town of Ridge - Home", [], "Call (717) 259-0965"⟩] "x").site_name
      = "Town of Ridge" := by decide
example :
    (ParseAndConvert.extract_metadata
      [⟨some "Town of Ridge - Home", [], "Call (717) 259-0965"⟩]
        "x").contact.phone = "(717) 259-0965" := by decide

namespace ParseAndConvert

theorem stepName_contact (m : Meta) (d : DocModel) :
    (stepName m d).contact = m.contact := by
  unfold stepName
  split
  · split <;> rfl
  · rfl

theorem stepNameAlt_contact (m : Meta) (d : DocModel) :
    (stepNameAlt m d).contact = m.contact := by
  unfold stepNameAlt
  split
  · split <;> rfl
  · rfl

theorem stepLogo_contact (m : Meta) (d : DocModel) :
    (stepLogo m d).contact = m.contact := by
  unfold stepLogo
  split
  · split
    · split <;> rfl
    · rfl
  · rfl

theorem stepEmail_phone (m : Meta) (d : DocModel) :
    (stepEmail m d).contact.phone = m.contact.phone := by
  unfold stepEmail
  split
  · split <;> rfl
  · rfl

theorem stepAddress_phone (m : Meta) (d : DocModel) :
    (stepAddress m d).contact.phone = m.contact.phone := by
  unfold stepAddress
  split
  · split <;> rfl
  · rfl

theorem stepHours_phone (m : Meta) (d : DocModel) :
    (stepHours m d).contact.phone = m.contact.phone := by
  unfold stepHours
  split
  · split <;> rfl
  · rfl

theorem stepPhone_email (m : Meta) (d : DocModel) :
    (stepPhone m d).contact.email = m.contact.email := by
  unfold stepPhone
  split
  · split <;> rfl
  · rfl

theorem stepAddress_email (m : Meta) (d : DocModel) :
    (stepAddress m d).contact.email = m.contact.email := by
  unfold stepAddress
  split
  · split <;> rfl
  · rfl

theorem stepHours_email (m : Meta) (d : DocModel) :
    (stepHours m d).contact.email = m.contact.email := by
  unfold stepHours
  split
  · split <;> rfl
  · rfl

theorem processDoc_phone_eq (m : Meta) (d : DocModel) :
    (processDoc m d).contact.phone =
      if m.contact.phone = "" then
        match reSearch phoneRe d.text.toList with
        | some p => String.mk p
        | none => m.contact.phone
      else m.contact.phone := by
  unfold processDoc
  rw [stepHours_phone, stepAddress_phone, stepEmail_phone]
  have hc : (stepLogo (stepNameAlt (stepName m d) d) d).contact =
      m.contact := by
    rw [stepLogo_contact, stepNameAlt_contact, stepName_contact]
  unfold stepPhone
  rw [hc]
  split
  · split
    · rfl
    · rw [hc]
  · rw [hc]

theorem processDoc_email_eq (m : Meta) (d : DocModel) :
    (processDoc m d).contact.email =
      if m.contact.email = "" then
        match reSearch emailRe d.text.toList with
        | some p => String.mk p
        | none => m.contact.email
      else m.contact.email := by
  unfold processDoc
  rw [stepHours_email, stepAddress_email]
  have hc : (stepPhone (stepLogo (stepNameAlt (stepName m d) d) d) d).contact.email =
      m.contact.email := by
    rw [stepPhone_email, stepLogo_contact, stepNameAlt_contact,
      stepName_contact]
  unfold stepEmail
  rw [hc]
  split
  · split
    · rfl
    · exact hc
  · exact hc

theorem foldl_phone_write_once :
    ∀ (l : List DocModel) (m : Meta), m.contact.phone ≠ "" →
      (l.foldl processDoc m).contact.phone = m.contact.phone := by
  intro l
  induction l with
  | nil => intro m _; rfl
  | cons d l ih =>
    intro m hm
    simp only [List.foldl_cons]
    have hd : (processDoc m d).contact.phone = m.contact.phone := by
      rw [processDoc_phone_eq, if_neg hm]
    rw [ih (processDoc m d) (by rw [hd]; exact hm), hd]

theorem foldl_email_write_once :
    ∀ (l : List DocModel) (m : Meta), m.contact.email ≠ "" →
      (l.foldl processDoc m).contact.email = m.contact.email := by
  intro l
  induction l with
  | nil => intro m _; rfl
  | cons d l ih =>
    intro m hm
    simp only [List.foldl_cons]
    have hd : (processDoc m d).contact.email = m.contact.email := by
      rw [processDoc_email_eq, if_neg hm]
    rw [ih (processDoc m d) (by rw [hd]; exact hm), hd]

theorem extract_metadata_contact (l : List DocModel) (dir : String) :
    (extract_metadata l dir).contact =
      ((l.take 20).foldl processDoc initMeta).contact := by
  unfold extract_metadata
  dsimp only
  split <;> rfl

end ParseAndConvert

/-! ## Claim C3: metadata write-once -/

set_option maxHeartbeats 2000000 in
/-- C3 counterexample.  The claim states that scanning document B (has
phone) then document A (no phone) — the reverse order — yields A's phone.
A has no phone at all (the phone search on its text fails), yet the
extracted phone is B's non-empty value, so the reverse scan cannot yield
A's (empty) phone value. -/
theorem C3_counterexample :
    reSearch phoneRe ("no digits here" : String).toList = none ∧
    (ParseAndConvert.extract_metadata
      [⟨none, [], "Call 555-123-4567 now"⟩, ⟨none, [], "no digits here"⟩]
      "x").contact.phone = "555-123-4567" ∧
    ("555-123-4567" : String) ≠ "" := by
  refine ⟨by decide, by decide, by decide⟩

/-- C3 (amended): contact fields are write-once, first match wins: once a
field is non-empty it is never overwritten by a later document (shown for
phone and e-mail over every scan), and in the two-document phone scenario —
A without a phone, B with one — both scan orders yield B's phone, because B
is the first document with a non-empty match in either order. -/
theorem C3_metadata_write_once :
    (∀ (l : List DocModel) (m : ParseAndConvert.Meta),
      m.contact.phone ≠ "" →
      (l.foldl ParseAndConvert.processDoc m).contact.phone =
        m.contact.phone) ∧
    (∀ (l : List DocModel) (m : ParseAndConvert.Meta),
      m.contact.email ≠ "" →
      (l.foldl ParseAndConvert.processDoc m).contact.email =
        m.contact.email) ∧
    (∀ (A B : DocModel) (p : List Char) (dir : String),
      reSearch phoneRe A.text.toList = none →
      reSearch phoneRe B.text.toList = some p →
      String.mk p ≠ "" →
      (ParseAndConvert.extract_metadata [A, B] dir).contact.phone =
        String.mk p ∧
      (ParseAndConvert.extract_metadata [B, A] dir).contact.phone =
        String.mk p) := by
  refine ⟨ParseAndConvert.foldl_phone_write_once,
    ParseAndConvert.foldl_email_write_once, ?_⟩
  intro A B p dir hA hB hp
  constructor
  · rw [ParseAndConvert.extract_metadata_contact,
      show (List.take 20 [A, B]) = [A, B] from rfl]
    simp only [List.foldl_cons, List.foldl_nil]
    have h1 : (ParseAndConvert.processDoc ParseAndConvert.initMeta
        A).contact.phone = "" := by
      rw [ParseAndConvert.processDoc_phone_eq,
        if_pos (show ParseAndConvert.initMeta.contact.phone = "" from rfl),
        hA]
      rfl
    rw [ParseAndConvert.processDoc_phone_eq, h1,
      if_pos (show ("" : String) = "" from rfl), hB]
  · rw [ParseAndConvert.extract_metadata_contact,
      show (List.take 20 [B, A]) = [B, A] from rfl]
    simp only [List.foldl_cons, List.foldl_nil]
    have h1 : (ParseAndConvert.processDoc ParseAndConvert.initMeta
        B).contact.phone = String.mk p := by
      rw [ParseAndConvert.processDoc_phone_eq,
        if_pos (show ParseAndConvert.initMeta.contact.phone = "" from rfl),
        hB]
    rw [ParseAndConvert.processDoc_phone_eq, h1, if_neg hp]

set_option maxHeartbeats 2000000 in
/-- C3 witness: the two-document phone scenario at concrete documents, both
scan orders yielding B's phone. -/
theorem C3_witness :
    reSearch phoneRe ("no digits here" : String).toList = none ∧
    reSearch phoneRe ("Call 555-123-4567 now" : String).toList =
      some ("555-123-4567" : String).toList ∧
    (ParseAndConvert.extract_metadata
      [⟨none, [], "no digits here"⟩, ⟨none, [], "Call 555-123-4567 now"⟩]
      "x").contact.phone = String.mk ("555-123-4567" : String).toList := by
  refine ⟨by decide, by decide, ?_⟩
  exact (C3_metadata_write_once.2.2 ⟨none, [], "no digits here"⟩
    ⟨none, [], "Call 555-123-4567 now"⟩ ("555-123-4567" : String).toList "x"
    (by decide) (by decide) (by decide)).1

/-! ## `parse_site_improved.py`: metadata extraction (C10)

`extract_metadata(html_files, source_folder)` reads only
`source_folder / 'index.html'`; the `html_files` argument is never used.
The index document is modelled by what the function reads from its soup:
the stripped `<title>` text, the `<img>` tags, and the text of the footer
element (`None` when the file, or the footer, is absent). -/

/-- The index document as read by the improved `extract_metadata`;
`none` models a missing `index.html`. -/
structure IndexDoc : Type where
  title : Option String
  imgs : List Img
  footerText : Option String
deriving DecidableEq, Repr

/-- `[\d\-\(\) ]` — the captured class of the footer phone/fax patterns. -/
def isPhoneFieldCh (c : Char) : Bool :=
  c.isDigit || c = '-' || c = '(' || c = ')' || c = ' '

/-- `Phone:\s*([\d\-\(\) ]+)`. -/
def phoneLabelRe : Re :=
  Re.seq (litR "Phone:") (Re.seq (Re.starC pySpace) (rep1 isPhoneFieldCh))

/-- `Fax:\s*([\d\-\(\) ]+)`. -/
def faxLabelRe : Re :=
  Re.seq (litR "Fax:") (Re.seq (Re.starC pySpace) (rep1 isPhoneFieldCh))

/-- `group(1).strip()` for the label patterns: the captured group is the
match after the literal label (length `n`) with the `\s*` part removed; on
the backtracking corner where the group is a lone space both sides strip to
the empty string, so dropping all leading whitespace is exact. -/
def groupAfterLabel (m : List Char) (n : Nat) : String :=
  String.mk (pyStrip (List.dropWhile pySpace (m.drop n)))

/-- `(\d+\s+[\w\s]+(?:Street|St|Avenue|Ave|Road|Rd).*?PA\s+\d{5})` with
`re.IGNORECASE` (no `re.DOTALL`). -/
def addressImpRe : Re :=
  Re.seq (rep1 isDigitCh)
    (Re.seq (rep1 pySpace)
      (Re.seq (rep1 isWordSpace)
        (Re.seq (altList [litCI "Street", litCI "St", litCI "Avenue",
            litCI "Ave", litCI "Road", litCI "Rd"])
          (Re.seq (Re.starCL isDotCh)
            (Re.seq (litCI "PA")
              (Re.seq (rep1 pySpace) (repN isDigitCh 5)))))))

/-- `(Monday.*?(?:AM|PM))` with `re.IGNORECASE | re.DOTALL`. -/
def hoursImpRe : Re :=
  Re.seq (litCI "Monday")
    (Re.seq (Re.starCL isAnyCh) (Re.alt (litCI "AM") (litCI "PM")))

/-- `\s*[-|]\s*.*$` (no `re.MULTILINE`: `$` is the end of the string or
just before one trailing newline). -/
def nameSuffixRe : Re :=
  Re.seq (Re.starC pySpace)
    (Re.seq (Re.chr (fun c => c = '-' || c = '|'))
      (Re.seq (Re.starC pySpace) (Re.seq (Re.starC isDotCh) Re.eos)))

namespace Improved

/-- The dict built by `extract_footer_metadata`
(`parse_site_improved.py`, lines 356-416). -/
structure FooterContact : Type where
  phone : String
  fax : String
  email : String
  address : String
  hours : String
deriving DecidableEq, Repr

/-- `extract_footer_metadata`: each field from the first match of its
pattern in the footer text, empty when the footer or the pattern is
absent; office hours are whitespace-collapsed and dropped when 200
characters or longer. -/
def extract_footer_metadata (footerText : Option String) : FooterContact :=
  match footerText with
  | none => ⟨"", "", "", "", ""⟩
  | some ft =>
    let t := ft.toList
    let phone := match reSearch phoneLabelRe t with
      | some m => groupAfterLabel m 6
      | none => ""
    let fax := match reSearch faxLabelRe t with
      | some m => groupAfterLabel m 4
      | none => ""
    let email := match reSearch emailRe t with
      | some m => String.mk m
      | none => ""
    let address := match reSearch addressImpRe t with
      | some m => String.mk (pyStrip m)
      | none => ""
    let hours := match reSearch hoursImpRe t with
      | some m =>
        let ht := reSub (rep1 pySpace) [' '] (pyStrip m)
        if ht.length < 200 then String.mk ht else ""
      | none => ""
    ⟨phone, fax, email, address, hours⟩

/-- The metadata dict returned by the improved `extract_metadata`;
`contact = none` models the empty dict `{}`. -/
structure ImpMeta : Type where
  municipality_name : String
  logo_url : String
  primary_color : String
  contact : Option FooterContact
  social_media : List (String × String)
deriving DecidableEq, Repr

/-- `extract_metadata` from `parse_site_improved.py` (lines 562-614): only
`source_folder / 'index.html'` is consulted (the `html_files` argument is
dead); a missing index leaves every field at its default. -/
def extract_metadata (html_files : List String) (indexDoc : Option IndexDoc) :
    ImpMeta :=
  let _ := html_files
  match indexDoc with
  | none =>
    { municipality_name := "Unknown Municipality", logo_url := "",
      primary_color := "#0A2463", contact := none, social_media := [] }
  | some d =>
    let name := match d.title with
      | some t =>
        pyStripStr (String.mk
          (reSub (litR "Adams County Municipality") []
            (reSub nameSuffixRe [] t.toList)))
      | none => "Unknown Municipality"
    let logo := match d.imgs.find? (fun i =>
        strIn "logo" (String.mk (lowerStr i.alt.toList)) ||
        strIn "seal" (String.mk (lowerStr i.alt.toList)) ||
        strIn "logo" (String.mk (lowerStr i.src.toList)) ||
        strIn "seal" (String.mk (lowerStr i.src.toList))) with
      | some i => i.src
      | none => ""
    { municipality_name := name, logo_url := logo,
      primary_color := "#0A2463",
      contact := some (extract_footer_metadata d.footerText),
      social_media := [] }

end Improved

example :
    (Improved.extract_metadata []
      (some ⟨some "Abbottstown Borough - Adams County",
        [⟨"images/seal.png", "Borough Seal", ""⟩],
        some "Phone: 717-259-0965 Fax: 717-259-1000"⟩)).municipality_name =
      "Abbottstown Borough" := by decide
example :
    (Improved.extract_metadata []
      (some ⟨none, [],
        some "Phone: 717-259-0965 x"⟩)).contact =
      some ⟨"717-259-0965", "", "", "", ""⟩ := by decide

/-! ## Claim C10: entry-document-only metadata in the improved pipeline -/

/-- C10: the improved `extract_metadata` never reads its `html_files`
argument — two runs differing only in `html_files` agree — and with no
`index.html` it returns the defaults (`Unknown Municipality`, empty logo,
empty contact dict, empty social dict) without raising (the embedding is a
total function). -/
theorem C10_improved_metadata_entry_only :
    (∀ (files1 files2 : List String) (idx : Option IndexDoc),
      Improved.extract_metadata files1 idx =
        Improved.extract_metadata files2 idx) ∧
    (∀ files : List String,
      Improved.extract_metadata files none =
        { municipality_name := "Unknown Municipality", logo_url := "",
          primary_color := "#0A2463", contact := none,
          social_media := [] }) := by
  exact ⟨fun _ _ _ => rfl, fun _ => rfl⟩

/-! ## The document tree and the Content Cleaner (C5)

A parsed document is a forest of nodes: text nodes and element nodes with a
tag name, a class list, an id, and children.  `decompose()` during
iteration removes an element together with its subtree, and an element's
attributes never change, so each removal pass is the recursive filter
`filterForest` over a node-local predicate on `(tag, classes, id)`. -/

inductive Node : Type where
  | text (s : String) : Node
  | elem (tag : String) (classes : List String) (id : String)
      (children : List Node) : Node
deriving Repr

/-- Remove every element (with its subtree) whose tag/classes/id satisfy
`bad`; text nodes are never touched (`find_all` yields only tags). -/
def filterForest (bad : String → List String → String → Bool) :
    List Node → List Node
  | [] => []
  | Node.text s :: rest => Node.text s :: filterForest bad rest
  | Node.elem t c i ch :: rest =>
    if bad t c i then filterForest bad rest
    else Node.elem t c i (filterForest bad ch) :: filterForest bad rest
termination_by f => sizeOf f
decreasing_by all_goals (simp; try omega)

/-- Strong induction on the size of a forest. -/
theorem forestRec {motive : List Node → Prop}
    (ind : ∀ f, (∀ g, sizeOf g < sizeOf f → motive g) → motive f) :
    ∀ f, motive f :=
  fun f => ind f (fun g _ => forestRec ind g)
termination_by f => sizeOf f
decreasing_by omega

/-- No node of the forest (recursively) satisfies `p`. -/
def noneSat (p : String → List String → String → Bool) : List Node → Bool
  | [] => true
  | Node.text _ :: rest => noneSat p rest
  | Node.elem t c i ch :: rest =>
    !p t c i && noneSat p ch && noneSat p rest
termination_by f => sizeOf f
decreasing_by all_goals (simp; try omega)

theorem noneSat_filterForest (p : String → List String → String → Bool) :
    ∀ f, noneSat p (filterForest p f) = true := by
  intro f
  induction f using forestRec with
  | ind f ih =>
    match f with
    | [] => simp [filterForest, noneSat]
    | Node.text s :: rest =>
      simp only [filterForest, noneSat]
      exact ih rest (by simp; try omega)
    | Node.elem t c i ch :: rest =>
      by_cases hb : p t c i
      · simp only [filterForest, if_pos hb]
        exact ih rest (by simp; try omega)
      · simp only [filterForest, if_neg hb, noneSat, Bool.and_eq_true,
          Bool.not_eq_true']
        exact ⟨⟨by simp [hb], ih ch (by simp; try omega)⟩,
          ih rest (by simp; try omega)⟩

theorem filterForest_of_noneSat (p : String → List String → String → Bool) :
    ∀ f, noneSat p f = true → filterForest p f = f := by
  intro f
  induction f using forestRec with
  | ind f ih =>
    match f with
    | [] => intro _; simp [filterForest]
    | Node.text s :: rest =>
      intro h
      simp only [noneSat] at h
      simp only [filterForest]
      rw [ih rest (by simp; try omega) h]
    | Node.elem t c i ch :: rest =>
      intro h
      simp only [noneSat, Bool.and_eq_true, Bool.not_eq_true'] at h
      simp only [filterForest, if_neg (by simp [h.1.1] : ¬p t c i = true)]
      rw [ih ch (by simp; try omega) h.1.2, ih rest (by simp; try omega) h.2]

theorem noneSat_filterForest_of_noneSat
    (p q : String → List String → String → Bool) :
    ∀ f, noneSat p f = true → noneSat p (filterForest q f) = true := by
  intro f
  induction f using forestRec with
  | ind f ih =>
    match f with
    | [] => intro _; simp [filterForest, noneSat]
    | Node.text s :: rest =>
      intro h
      simp only [noneSat] at h
      simp only [filterForest, noneSat]
      exact ih rest (by simp; try omega) h
    | Node.elem t c i ch :: rest =>
      intro h
      simp only [noneSat, Bool.and_eq_true, Bool.not_eq_true'] at h
      by_cases hb : q t c i
      · simp only [filterForest, if_pos hb]
        exact ih rest (by simp; try omega) h.2
      · simp only [filterForest, if_neg hb, noneSat, Bool.and_eq_true,
          Bool.not_eq_true']
        exact ⟨⟨h.1.1, ih ch (by simp; try omega) h.1.2⟩,
          ih rest (by simp; try omega) h.2⟩

theorem filterForest_filterForest
    (p q : String → List String → String → Bool) :
    ∀ f, filterForest p (filterForest q f) =
      filterForest (fun t c i => q t c i || p t c i) f := by
  intro f
  induction f using forestRec with
  | ind f ih =>
    match f with
    | [] => simp [filterForest]
    | Node.text s :: rest =>
      simp only [filterForest]
      rw [ih rest (by simp; try omega)]
    | Node.elem t c i ch :: rest =>
      by_cases hq : q t c i
      · rw [show filterForest q (Node.elem t c i ch :: rest) =
            filterForest q rest from by simp [filterForest, hq]]
        rw [show filterForest (fun t c i => q t c i || p t c i)
            (Node.elem t c i ch :: rest) =
            filterForest (fun t c i => q t c i || p t c i) rest from by
          simp [filterForest, hq]]
        exact ih rest (by simp; try omega)
      · by_cases hp : p t c i
        · rw [show filterForest q (Node.elem t c i ch :: rest) =
              Node.elem t c i (filterForest q ch) :: filterForest q rest
              from by simp [filterForest, hq]]
          rw [show filterForest p (Node.elem t c i (filterForest q ch) ::
              filterForest q rest) = filterForest p (filterForest q rest)
              from by simp [filterForest, hp]]
          rw [show filterForest (fun t c i => q t c i || p t c i)
              (Node.elem t c i ch :: rest) =
              filterForest (fun t c i => q t c i || p t c i) rest from by
            simp [filterForest, hq, hp]]
          exact ih rest (by simp; try omega)
        · rw [show filterForest q (Node.elem t c i ch :: rest) =
              Node.elem t c i (filterForest q ch) :: filterForest q rest
              from by simp [filterForest, hq]]
          rw [show filterForest p (Node.elem t c i (filterForest q ch) ::
              filterForest q rest) =
              Node.elem t c i (filterForest p (filterForest q ch)) ::
              filterForest p (filterForest q rest)
              from by simp [filterForest, hp]]
          rw [show filterForest (fun t c i => q t c i || p t c i)
              (Node.elem t c i ch :: rest) =
              Node.elem t c i
                (filterForest (fun t c i => q t c i || p t c i) ch) ::
              filterForest (fun t c i => q t c i || p t c i) rest from by
            simp [filterForest, hq, hp]]
          rw [ih ch (by simp; try omega), ih rest (by simp; try omega)]

/-- Tags removed unconditionally by both cleaners. -/
def badTagName (t : String) : Bool :=
  ["script", "style", "nav", "header", "footer", "iframe",
   "noscript"].contains t

namespace ParseSite

/-- The `remove_patterns` list of `clean_html_content` (`parse_site.py`,
lines 330-335). -/
def remove_patterns : List String :=
  ["nav", "menu", "sidebar", "side-bar", "breadcrumb", "breadcrumbs",
   "cookie", "popup", "modal", "advertisement", "ad-", "ads-", "share",
   "social", "follow", "newsletter", "subscription", "search", "login",
   "signup", "header", "footer"]

/-- An element matches a boilerplate pattern when some pattern occurs in
its lowercased space-joined class string or lowercased id. -/
def badPattern (_t : String) (classes : List String) (id : String) : Bool :=
  let class_str := String.mk (lowerStr (String.intercalate " " classes).toList)
  let id_str := String.mk (lowerStr id.toList)
  remove_patterns.any (fun pat => strIn pat class_str || strIn pat id_str)

/-- `clean_html_content` from `parse_site.py` (lines 294-350): remove the
fixed tag set, then remove elements matching the class/id patterns. -/
def clean_html_content (f : List Node) : List Node :=
  filterForest (fun t c i => badPattern t c i)
    (filterForest (fun t _ _ => badTagName t) f)

end ParseSite

theorem filter_dual_idem (p q : String → List String → String → Bool)
    (f : List Node) :
    filterForest p (filterForest q (filterForest p (filterForest q f))) =
      filterForest p (filterForest q f) := by
  rw [filterForest_filterForest p q f]
  rw [filterForest_filterForest q (fun t c i => q t c i || p t c i) f]
  rw [filterForest_filterForest p
    (fun t c i => (q t c i || p t c i) || q t c i) f]
  congr 1
  funext t c i
  cases q t c i <;> cases p t c i <;> rfl

/-! Anchor selection and empty-tag removal of the improved cleaner. -/

/-- `soup.find(...)` in document (preorder) order. -/
def findFirstNode (p : String → List String → String → Bool) :
    List Node → Option Node
  | [] => none
  | Node.text _ :: rest => findFirstNode p rest
  | Node.elem t c i ch :: rest =>
    if p t c i then some (Node.elem t c i ch)
    else (findFirstNode p ch).orElse (fun _ => findFirstNode p rest)
termination_by f => sizeOf f
decreasing_by all_goals (simp; try omega)

/-- `soup.find('main', id='main')`. -/
def isMainMain (t : String) (_ : List String) (i : String) : Bool :=
  t == "main" && i == "main"

/-- `soup.find('main')`. -/
def isMainTag (t : String) (_ : List String) (_ : String) : Bool :=
  t == "main"

/-- `soup.find('div', class_='contentWrapper')` (a multi-valued class
attribute matches when it contains the value). -/
def isContentWrapper (t : String) (c : List String) (_ : String) : Bool :=
  t == "div" && c.contains "contentWrapper"

/-- `soup.find('body')`. -/
def isBodyTag (t : String) (_ : List String) (_ : String) : Bool :=
  t == "body"

/-- The main-content anchor of `extract_main_content`
(`parse_site_improved.py`, lines 293-306): `main#main`, else `main`, else
`div.contentWrapper`, else `body`, else the whole document. -/
def pickContent (f : List Node) : List Node :=
  match findFirstNode isMainMain f with
  | some n => [n]
  | none =>
    match findFirstNode isMainTag f with
    | some n => [n]
    | none =>
      match findFirstNode isContentWrapper f with
      | some n => [n]
      | none =>
        match findFirstNode isBodyTag f with
        | some n => [n]
        | none => f

/-- `len(tag.get_text(strip=True)) == 0`: every text node under the forest
is whitespace-only. -/
def wsOnlyForest : List Node → Bool
  | [] => true
  | Node.text s :: rest => s.toList.all pySpace && wsOnlyForest rest
  | Node.elem _ _ _ ch :: rest => wsOnlyForest ch && wsOnlyForest rest
termination_by f => sizeOf f
decreasing_by all_goals (simp; try omega)

/-- Void tags never removed by the empty-tag pass. -/
def keepAlways (t : String) : Bool :=
  ["br", "hr", "img"].contains t

/-- The empty-tag removal pass of the improved `clean_html_content`
(lines 349-351): drop every element (other than br/hr/img) whose stripped
text is empty. -/
def removeEmpty : List Node → List Node
  | [] => []
  | Node.text s :: rest => Node.text s :: removeEmpty rest
  | Node.elem t c i ch :: rest =>
    if !keepAlways t && wsOnlyForest ch then removeEmpty rest
    else Node.elem t c i (removeEmpty ch) :: removeEmpty rest
termination_by f => sizeOf f
decreasing_by all_goals (simp; try omega)

/-- Every element of the forest is non-removable by the empty-tag pass. -/
def noEmpties : List Node → Bool
  | [] => true
  | Node.text _ :: rest => noEmpties rest
  | Node.elem t _ _ ch :: rest =>
    (keepAlways t || !wsOnlyForest ch) && noEmpties ch && noEmpties rest
termination_by f => sizeOf f
decreasing_by all_goals (simp; try omega)

namespace Improved

/-- The `remove_patterns` list of `extract_main_content`
(`parse_site_improved.py`, lines 314-318).  (`utilityBar`/`alertBar` are
compared against lowercased strings, exactly as in the source.) -/
def remove_patterns : List String :=
  ["nav", "menu", "sidebar", "breadcrumb", "cookie", "popup", "modal",
   "advertisement", "ad-", "share", "social", "search", "login", "signup",
   "navbar", "toggler", "utilityBar", "alertBar"]

/-- Pattern match against the lowercased class string and id. -/
def badPattern (_t : String) (classes : List String) (id : String) : Bool :=
  let class_str := String.mk (lowerStr (String.intercalate " " classes).toList)
  let id_str := String.mk (lowerStr id.toList)
  remove_patterns.any (fun pat => strIn pat class_str || strIn pat id_str)

/-- `extract_main_content` from `parse_site_improved.py` (lines 283-332):
select the main-content anchor, then remove the fixed tag set and the
pattern-matching elements. -/
def extract_main_content (f : List Node) : List Node :=
  filterForest (fun t c i => badPattern t c i)
    (filterForest (fun t _ _ => badTagName t) (pickContent f))

/-- `clean_html_content` from `parse_site_improved.py` (lines 335-353):
extract the main content, then remove empty tags. -/
def clean_html_content (f : List Node) : List Node :=
  removeEmpty (extract_main_content f)

end Improved

theorem wsOnlyForest_removeEmpty :
    ∀ f, wsOnlyForest (removeEmpty f) = wsOnlyForest f := by
  intro f
  induction f using forestRec with
  | ind f ih =>
    match f with
    | [] => simp [removeEmpty]
    | Node.text s :: rest =>
      simp only [removeEmpty, wsOnlyForest]
      rw [ih rest (by simp; try omega)]
    | Node.elem t c i ch :: rest =>
      by_cases hcond : (!keepAlways t && wsOnlyForest ch) = true
      · rw [show removeEmpty (Node.elem t c i ch :: rest) =
            removeEmpty rest from by simp [removeEmpty, hcond]]
        rw [ih rest (by simp; try omega)]
        have hws : wsOnlyForest ch = true := by
          simp only [Bool.and_eq_true] at hcond
          exact hcond.2
        simp [wsOnlyForest, hws]
      · rw [show removeEmpty (Node.elem t c i ch :: rest) =
            Node.elem t c i (removeEmpty ch) :: removeEmpty rest from by
          simp only [removeEmpty, hcond]
          simp]
        simp only [wsOnlyForest]
        rw [ih ch (by simp; try omega), ih rest (by simp; try omega)]

theorem noEmpties_removeEmpty :
    ∀ f, noEmpties (removeEmpty f) = true := by
  intro f
  induction f using forestRec with
  | ind f ih =>
    match f with
    | [] => simp [removeEmpty, noEmpties]
    | Node.text s :: rest =>
      simp only [removeEmpty, noEmpties]
      exact ih rest (by simp; try omega)
    | Node.elem t c i ch :: rest =>
      by_cases hcond : (!keepAlways t && wsOnlyForest ch) = true
      · rw [show removeEmpty (Node.elem t c i ch :: rest) =
            removeEmpty rest from by simp [removeEmpty, hcond]]
        exact ih rest (by simp; try omega)
      · rw [show removeEmpty (Node.elem t c i ch :: rest) =
            Node.elem t c i (removeEmpty ch) :: removeEmpty rest from by
          simp only [removeEmpty, hcond]
          simp]
        simp only [noEmpties, Bool.and_eq_true]
        refine ⟨⟨?_, ih ch (by simp; try omega)⟩, ih rest (by simp; try omega)⟩
        rw [wsOnlyForest_removeEmpty ch]
        simp only [Bool.and_eq_true, Bool.not_eq_true'] at hcond
        rcases Bool.eq_false_or_eq_true (keepAlways t) with hk | hk
        · simp [hk]
        · simp only [Bool.or_eq_true, Bool.not_eq_true']
          right
          rcases Bool.eq_false_or_eq_true (wsOnlyForest ch) with hw | hw
          · exact absurd ⟨hk, hw⟩ hcond
          · exact hw

theorem removeEmpty_of_noEmpties :
    ∀ f, noEmpties f = true → removeEmpty f = f := by
  intro f
  induction f using forestRec with
  | ind f ih =>
    match f with
    | [] => intro _; simp [removeEmpty]
    | Node.text s :: rest =>
      intro h
      simp only [noEmpties] at h
      simp only [removeEmpty]
      rw [ih rest (by simp; try omega) h]
    | Node.elem t c i ch :: rest =>
      intro h
      simp only [noEmpties, Bool.and_eq_true, Bool.or_eq_true,
        Bool.not_eq_true'] at h
      have hcond : ¬((!keepAlways t && wsOnlyForest ch) = true) := by
        simp only [Bool.and_eq_true, Bool.not_eq_true', not_and]
        intro hk
        rcases h.1.1 with hka | hws
        · rw [hka] at hk; cases hk
        · rw [hws]; simp
      rw [show removeEmpty (Node.elem t c i ch :: rest) =
          Node.elem t c i (removeEmpty ch) :: removeEmpty rest from by
        simp only [removeEmpty, hcond]
        simp]
      rw [ih ch (by simp; try omega) h.1.2, ih rest (by simp; try omega) h.2]

theorem noneSat_removeEmpty (p : String → List String → String → Bool) :
    ∀ f, noneSat p f = true → noneSat p (removeEmpty f) = true := by
  intro f
  induction f using forestRec with
  | ind f ih =>
    match f with
    | [] => intro _; simp [removeEmpty, noneSat]
    | Node.text s :: rest =>
      intro h
      simp only [noneSat] at h
      simp only [removeEmpty, noneSat]
      exact ih rest (by simp; try omega) h
    | Node.elem t c i ch :: rest =>
      intro h
      simp only [noneSat, Bool.and_eq_true, Bool.not_eq_true'] at h
      by_cases hcond : (!keepAlways t && wsOnlyForest ch) = true
      · rw [show removeEmpty (Node.elem t c i ch :: rest) =
            removeEmpty rest from by simp [removeEmpty, hcond]]
        exact ih rest (by simp; try omega) h.2
      · rw [show removeEmpty (Node.elem t c i ch :: rest) =
            Node.elem t c i (removeEmpty ch) :: removeEmpty rest from by
          simp only [removeEmpty, hcond]
          simp]
        simp only [noneSat, Bool.and_eq_true, Bool.not_eq_true']
        exact ⟨⟨h.1.1, ih ch (by simp; try omega) h.1.2⟩,
          ih rest (by simp; try omega) h.2⟩

theorem findFirstNode_shape (p : String → List String → String → Bool) :
    ∀ f n, findFirstNode p f = some n →
      ∃ t c i ch, n = Node.elem t c i ch ∧ p t c i = true := by
  intro f
  induction f using forestRec with
  | ind f ih =>
    match f with
    | [] => intro n h; simp [findFirstNode] at h
    | Node.text s :: rest =>
      intro n h
      rw [show findFirstNode p (Node.text s :: rest) =
          findFirstNode p rest from by simp [findFirstNode]] at h
      exact ih rest (by simp; try omega) n h
    | Node.elem t c i ch :: rest =>
      intro n h
      by_cases hp : p t c i
      · rw [show findFirstNode p (Node.elem t c i ch :: rest) =
            some (Node.elem t c i ch) from by simp [findFirstNode, hp]] at h
        cases h
        exact ⟨t, c, i, ch, rfl, hp⟩
      · rw [show findFirstNode p (Node.elem t c i ch :: rest) =
            (findFirstNode p ch).orElse
              (fun _ => findFirstNode p rest) from by
          simp [findFirstNode, hp]] at h
        cases hch : findFirstNode p ch with
        | some m =>
          rw [hch] at h
          simp only [Option.orElse] at h
          cases h
          exact ih ch (by simp; try omega) n hch
        | none =>
          rw [hch] at h
          simp only [Option.orElse] at h
          exact ih rest (by simp; try omega) n h

theorem noneSat_of_findFirstNode_some
    (p q : String → List String → String → Bool) :
    ∀ f n, findFirstNode p f = some n → noneSat q f = true →
      noneSat q [n] = true := by
  intro f
  induction f using forestRec with
  | ind f ih =>
    match f with
    | [] => intro n h; simp [findFirstNode] at h
    | Node.text s :: rest =>
      intro n h hq
      rw [show findFirstNode p (Node.text s :: rest) =
          findFirstNode p rest from by simp [findFirstNode]] at h
      simp only [noneSat] at hq
      exact ih rest (by simp; try omega) n h hq
    | Node.elem t c i ch :: rest =>
      intro n h hq
      simp only [noneSat, Bool.and_eq_true, Bool.not_eq_true'] at hq
      by_cases hp : p t c i
      · rw [show findFirstNode p (Node.elem t c i ch :: rest) =
            some (Node.elem t c i ch) from by simp [findFirstNode, hp]] at h
        cases h
        simp only [noneSat, Bool.and_eq_true, Bool.not_eq_true']
        exact ⟨⟨hq.1.1, hq.1.2⟩, trivial⟩
      · rw [show findFirstNode p (Node.elem t c i ch :: rest) =
            (findFirstNode p ch).orElse
              (fun _ => findFirstNode p rest) from by
          simp [findFirstNode, hp]] at h
        cases hch : findFirstNode p ch with
        | some m =>
          rw [hch] at h
          simp only [Option.orElse] at h
          cases h
          exact ih ch (by simp; try omega) n hch hq.1.2
        | none =>
          rw [hch] at h
          simp only [Option.orElse] at h
          exact ih rest (by simp; try omega) n h hq.2

theorem findFirstNode_of_noneSat (p : String → List String → String → Bool) :
    ∀ f, noneSat p f = true → findFirstNode p f = none := by
  intro f
  induction f using forestRec with
  | ind f ih =>
    match f with
    | [] => intro _; simp [findFirstNode]
    | Node.text s :: rest =>
      intro h
      simp only [noneSat] at h
      rw [show findFirstNode p (Node.text s :: rest) =
          findFirstNode p rest from by simp [findFirstNode]]
      exact ih rest (by simp; try omega) h
    | Node.elem t c i ch :: rest =>
      intro h
      simp only [noneSat, Bool.and_eq_true, Bool.not_eq_true'] at h
      rw [show findFirstNode p (Node.elem t c i ch :: rest) =
          (findFirstNode p ch).orElse (fun _ => findFirstNode p rest)
          from by simp [findFirstNode, h.1.1]]
      rw [ih ch (by simp; try omega) h.1.2,
        ih rest (by simp; try omega) h.2]
      rfl

theorem noneSat_of_findFirstNode_none
    (p : String → List String → String → Bool) :
    ∀ f, findFirstNode p f = none → noneSat p f = true := by
  intro f
  induction f using forestRec with
  | ind f ih =>
    match f with
    | [] => intro _; simp [noneSat]
    | Node.text s :: rest =>
      intro h
      rw [show findFirstNode p (Node.text s :: rest) =
          findFirstNode p rest from by simp [findFirstNode]] at h
      simp only [noneSat]
      exact ih rest (by simp; try omega) h
    | Node.elem t c i ch :: rest =>
      intro h
      by_cases hp : p t c i
      · rw [show findFirstNode p (Node.elem t c i ch :: rest) =
            some (Node.elem t c i ch) from by simp [findFirstNode, hp]] at h
        cases h
      · rw [show findFirstNode p (Node.elem t c i ch :: rest) =
            (findFirstNode p ch).orElse (fun _ => findFirstNode p rest)
            from by simp [findFirstNode, hp]] at h
        cases hch : findFirstNode p ch with
        | some m => rw [hch] at h; simp [Option.orElse] at h
        | none =>
          rw [hch] at h
          simp only [Option.orElse] at h
          simp only [noneSat, Bool.and_eq_true, Bool.not_eq_true']
          exact ⟨⟨by simp [hp], ih ch (by simp; try omega) hch⟩,
            ih rest (by simp; try omega) (by simpa using h)⟩

theorem findFirstNode_root (p : String → List String → String → Bool)
    (t : String) (c : List String) (i : String) (ch : List Node)
    (rest : List Node) (hp : p t c i = true) :
    findFirstNode p (Node.elem t c i ch :: rest) =
      some (Node.elem t c i ch) := by
  simp [findFirstNode, hp]

theorem cleaned_singleton_shape (t : String) (c : List String) (i : String)
    (ch : List Node) (ht : badTagName t = false) :
    removeEmpty (filterForest (fun t c i => Improved.badPattern t c i)
      (filterForest (fun t _ _ => badTagName t) [Node.elem t c i ch])) =
      [] ∨
    ∃ X, removeEmpty (filterForest (fun t c i => Improved.badPattern t c i)
      (filterForest (fun t _ _ => badTagName t) [Node.elem t c i ch])) =
      [Node.elem t c i X] := by
  rw [show filterForest (fun t _ _ => badTagName t) [Node.elem t c i ch] =
      [Node.elem t c i
        (filterForest (fun t _ _ => badTagName t) ch)] from by
    simp [filterForest, ht]]
  by_cases hp : Improved.badPattern t c i
  · left
    rw [show filterForest (fun t c i => Improved.badPattern t c i)
        [Node.elem t c i (filterForest (fun t _ _ => badTagName t) ch)] =
        [] from by simp [filterForest, hp]]
    simp [removeEmpty]
  · rw [show filterForest (fun t c i => Improved.badPattern t c i)
        [Node.elem t c i (filterForest (fun t _ _ => badTagName t) ch)] =
        [Node.elem t c i
          (filterForest (fun t c i => Improved.badPattern t c i)
            (filterForest (fun t _ _ => badTagName t) ch))] from by
      simp [filterForest, hp]]
    by_cases hw : (!keepAlways t && wsOnlyForest
        (filterForest (fun t c i => Improved.badPattern t c i)
          (filterForest (fun t _ _ => badTagName t) ch))) = true
    · left
      simp [removeEmpty, hw]
    · right
      refine ⟨removeEmpty (filterForest (fun t c i => Improved.badPattern t c i)
        (filterForest (fun t _ _ => badTagName t) ch)), ?_⟩
      simp only [removeEmpty, hw]
      simp [removeEmpty]

theorem noneSat_pickContent (q : String → List String → String → Bool)
    (f : List Node) (h : noneSat q f = true) :
    noneSat q (pickContent f) = true := by
  unfold pickContent
  cases h1 : findFirstNode isMainMain f with
  | some n => exact noneSat_of_findFirstNode_some _ q f n h1 h
  | none =>
    cases h2 : findFirstNode isMainTag f with
    | some n => exact noneSat_of_findFirstNode_some _ q f n h2 h
    | none =>
      cases h3 : findFirstNode isContentWrapper f with
      | some n => exact noneSat_of_findFirstNode_some _ q f n h3 h
      | none =>
        cases h4 : findFirstNode isBodyTag f with
        | some n => exact noneSat_of_findFirstNode_some _ q f n h4 h
        | none => exact h

theorem noneSat_cleanI (q : String → List String → String → Bool)
    (f : List Node) (h : noneSat q f = true) :
    noneSat q (Improved.clean_html_content f) = true := by
  unfold Improved.clean_html_content Improved.extract_main_content
  exact noneSat_removeEmpty q _
    (noneSat_filterForest_of_noneSat q _ _
      (noneSat_filterForest_of_noneSat q _ _ (noneSat_pickContent q f h)))

theorem cleanI_noneSat_tag (f : List Node) :
    noneSat (fun t _ _ => badTagName t)
      (Improved.clean_html_content f) = true := by
  unfold Improved.clean_html_content Improved.extract_main_content
  exact noneSat_removeEmpty _ _
    (noneSat_filterForest_of_noneSat _ _ _
      (noneSat_filterForest (fun t _ _ => badTagName t) (pickContent f)))

theorem cleanI_noneSat_pattern (f : List Node) :
    noneSat (fun t c i => Improved.badPattern t c i)
      (Improved.clean_html_content f) = true := by
  unfold Improved.clean_html_content Improved.extract_main_content
  exact noneSat_removeEmpty _ _
    (noneSat_filterForest (fun t c i => Improved.badPattern t c i) _)

theorem cleanI_noEmpties (f : List Node) :
    noEmpties (Improved.clean_html_content f) = true := by
  unfold Improved.clean_html_content
  exact noEmpties_removeEmpty _

theorem cleanI_of_fixed (g : List Node)
    (hq : noneSat (fun t _ _ => badTagName t) g = true)
    (hp : noneSat (fun t c i => Improved.badPattern t c i) g = true)
    (he : noEmpties g = true)
    (hpick : pickContent g = g) :
    Improved.clean_html_content g = g := by
  unfold Improved.clean_html_content Improved.extract_main_content
  rw [hpick, filterForest_of_noneSat _ g hq,
    filterForest_of_noneSat _ g hp, removeEmpty_of_noEmpties g he]

theorem improved_clean_idem (f : List Node) :
    Improved.clean_html_content (Improved.clean_html_content f) =
      Improved.clean_html_content f := by
  refine cleanI_of_fixed (Improved.clean_html_content f)
    (cleanI_noneSat_tag f) (cleanI_noneSat_pattern f)
    (cleanI_noEmpties f) ?_
  cases h1 : findFirstNode isMainMain f with
  | some n =>
    obtain ⟨t, c, i, ch, rfl, hsat⟩ := findFirstNode_shape _ f n h1
    have hteq : t = "main" := by
      simp only [isMainMain, Bool.and_eq_true, beq_iff_eq] at hsat
      exact hsat.1
    have ht : badTagName t = false := by rw [hteq]; decide
    have hgdef : Improved.clean_html_content f =
        removeEmpty (filterForest (fun t c i => Improved.badPattern t c i)
          (filterForest (fun t _ _ => badTagName t)
            [Node.elem t c i ch])) := by
      simp only [Improved.clean_html_content, Improved.extract_main_content,
        pickContent, h1]
    rcases cleaned_singleton_shape t c i ch ht with hnil | ⟨X, hX⟩
    · rw [hgdef, hnil]
      simp [pickContent, findFirstNode]
    · rw [hgdef, hX]
      simp only [pickContent,
        findFirstNode_root isMainMain t c i X [] hsat]
  | none =>
    have hg1 : noneSat isMainMain (Improved.clean_html_content f) = true :=
      noneSat_cleanI _ f (noneSat_of_findFirstNode_none _ f h1)
    cases h2 : findFirstNode isMainTag f with
    | some n =>
      obtain ⟨t, c, i, ch, rfl, hsat⟩ := findFirstNode_shape _ f n h2
      have hteq : t = "main" := by
        simp only [isMainTag, beq_iff_eq] at hsat
        exact hsat
      have ht : badTagName t = false := by rw [hteq]; decide
      have hgdef : Improved.clean_html_content f =
          removeEmpty (filterForest (fun t c i => Improved.badPattern t c i)
            (filterForest (fun t _ _ => badTagName t)
              [Node.elem t c i ch])) := by
        simp only [Improved.clean_html_content,
          Improved.extract_main_content, pickContent, h1, h2]
      rcases cleaned_singleton_shape t c i ch ht with hnil | ⟨X, hX⟩
      · rw [hgdef, hnil]
        simp [pickContent, findFirstNode]
      · rw [hgdef, hX] at hg1 ⊢
        have e1 : findFirstNode isMainMain [Node.elem t c i X] = none :=
          findFirstNode_of_noneSat _ _ hg1
        simp only [pickContent, e1,
          findFirstNode_root isMainTag t c i X [] hsat]
    | none =>
      have hg2 : noneSat isMainTag (Improved.clean_html_content f) = true :=
        noneSat_cleanI _ f (noneSat_of_findFirstNode_none _ f h2)
      cases h3 : findFirstNode isContentWrapper f with
      | some n =>
        obtain ⟨t, c, i, ch, rfl, hsat⟩ := findFirstNode_shape _ f n h3
        have hteq : t = "div" := by
          simp only [isContentWrapper, Bool.and_eq_true, beq_iff_eq] at hsat
          exact hsat.1
        have ht : badTagName t = false := by rw [hteq]; decide
        have hgdef : Improved.clean_html_content f =
            removeEmpty (filterForest
              (fun t c i => Improved.badPattern t c i)
              (filterForest (fun t _ _ => badTagName t)
                [Node.elem t c i ch])) := by
          simp only [Improved.clean_html_content,
            Improved.extract_main_content, pickContent, h1, h2, h3]
        rcases cleaned_singleton_shape t c i ch ht with hnil | ⟨X, hX⟩
        · rw [hgdef, hnil]
          simp [pickContent, findFirstNode]
        · rw [hgdef, hX] at hg1 hg2 ⊢
          have e1 : findFirstNode isMainMain [Node.elem t c i X] = none :=
            findFirstNode_of_noneSat _ _ hg1
          have e2 : findFirstNode isMainTag [Node.elem t c i X] = none :=
            findFirstNode_of_noneSat _ _ hg2
          simp only [pickContent, e1, e2,
            findFirstNode_root isContentWrapper t c i X [] hsat]
      | none =>
        have hg3 : noneSat isContentWrapper
            (Improved.clean_html_content f) = true :=
          noneSat_cleanI _ f (noneSat_of_findFirstNode_none _ f h3)
        cases h4 : findFirstNode isBodyTag f with
        | some n =>
          obtain ⟨t, c, i, ch, rfl, hsat⟩ := findFirstNode_shape _ f n h4
          have hteq : t = "body" := by
            simp only [isBodyTag, beq_iff_eq] at hsat
            exact hsat
          have ht : badTagName t = false := by rw [hteq]; decide
          have hgdef : Improved.clean_html_content f =
              removeEmpty (filterForest
                (fun t c i => Improved.badPattern t c i)
                (filterForest (fun t _ _ => badTagName t)
                  [Node.elem t c i ch])) := by
            simp only [Improved.clean_html_content,
              Improved.extract_main_content, pickContent, h1, h2, h3, h4]
          rcases cleaned_singleton_shape t c i ch ht with hnil | ⟨X, hX⟩
          · rw [hgdef, hnil]
            simp [pickContent, findFirstNode]
          · rw [hgdef, hX] at hg1 hg2 hg3 ⊢
            have e1 : findFirstNode isMainMain [Node.elem t c i X] = none :=
              findFirstNode_of_noneSat _ _ hg1
            have e2 : findFirstNode isMainTag [Node.elem t c i X] = none :=
              findFirstNode_of_noneSat _ _ hg2
            have e3 : findFirstNode isContentWrapper
                [Node.elem t c i X] = none :=
              findFirstNode_of_noneSat _ _ hg3
            simp only [pickContent, e1, e2, e3,
              findFirstNode_root isBodyTag t c i X [] hsat]
        | none =>
          have hg4 : noneSat isBodyTag
              (Improved.clean_html_content f) = true :=
            noneSat_cleanI _ f (noneSat_of_findFirstNode_none _ f h4)
          have e1 : findFirstNode isMainMain
              (Improved.clean_html_content f) = none :=
            findFirstNode_of_noneSat _ _ hg1
          have e2 : findFirstNode isMainTag
              (Improved.clean_html_content f) = none :=
            findFirstNode_of_noneSat _ _ hg2
          have e3 : findFirstNode isContentWrapper
              (Improved.clean_html_content f) = none :=
            findFirstNode_of_noneSat _ _ hg3
          have e4 : findFirstNode isBodyTag
              (Improved.clean_html_content f) = none :=
            findFirstNode_of_noneSat _ _ hg4
          simp only [pickContent, e1, e2, e3, e4]

/-! ## Claim C5: cleaning is idempotent -/

/-- C5: for every parsed document tree (modelled as a forest of element and
text nodes), applying `clean_html_content` to its own output yields an
identical result — the second pass removes no further elements — in both
`parse_site.py` and `parse_site_improved.py`. -/
theorem C5_cleaning_idempotent (f : List Node) :
    ParseSite.clean_html_content (ParseSite.clean_html_content f) =
      ParseSite.clean_html_content f ∧
    Improved.clean_html_content (Improved.clean_html_content f) =
      Improved.clean_html_content f := by
  constructor
  · unfold ParseSite.clean_html_content
    exact filter_dual_idem _ _ f
  · exact improved_clean_idem f
